import Mathlib

/-!
Verification development for the signal-evaluation and backtesting core of
the trade-data repository (src/app.py).

The pandas data frames of the source are embedded as Lean lists:

* a price data frame row (one trading day) is a `Bar`; derived moving-average
  columns are recomputed by `rollingMean` exactly where `calculate_mas` would
  have added them;
* a `NaN`-able numeric column is a `List (Option ℚ)`; pandas comparisons
  against `NaN` yield `False`, which the `o*` comparison helpers mirror;
* machine floats are idealised as rationals (`ℚ`);
* a filing record (one line item of one report) is a `RawFiling`; the
  release-date column added by `process_fundamental_data` turns it into an
  `FRow`;
* calendar dates and timestamps are integers ordered like dates (the concrete
  encoding used by witnesses is `year*10000 + month*100 + day`);
* `pandas.sort_values` is modelled as a stable insertion sort (`sortK`);
* a provider call that may raise is an `Except String` value; a provider call
  that may return nothing is an `Option`.
-/

namespace TradeData

/-- One row of the OHLCV price frame (`fdr.DataReader` output).
`openP` is the source's `Open` column. -/
structure Bar where
  date : Int
  openP : ℚ
  close : ℚ
  volume : ℚ
deriving DecidableEq, Inhabited

/-- Pandas comparison `a > b` on possibly-`NaN` cells: `False` unless both
sides are present. -/
def oGt : Option ℚ → Option ℚ → Bool
  | some a, some b => decide (b < a)
  | _, _ => false

/-- Pandas comparison `a < b` on possibly-`NaN` cells. -/
def oLt : Option ℚ → Option ℚ → Bool
  | some a, some b => decide (a < b)
  | _, _ => false

/-- Pandas comparison `a >= b` on possibly-`NaN` cells. -/
def oGe : Option ℚ → Option ℚ → Bool
  | some a, some b => decide (b ≤ a)
  | _, _ => false

/-- Pandas comparison `a <= b` on possibly-`NaN` cells. -/
def oLe : Option ℚ → Option ℚ → Bool
  | some a, some b => decide (a ≤ b)
  | _, _ => false

/-- `df['Close'].rolling(window=w).mean()` (`calculate_mas`, app.py:64-68):
at index `i` the trailing mean of the last `w` closes, `NaN` (`none`) while
fewer than `w` bars are available. -/
def rollingMean (w : Nat) (xs : List ℚ) : List (Option ℚ) :=
  (List.range xs.length).map (fun i =>
    if w ≤ i + 1 then some ((((xs.take (i + 1)).drop (i + 1 - w)).sum) / (w : ℚ))
    else none)

/-- `series.pct_change() * 100` at index `i` (app.py:123, 141): `NaN` at the
first row, otherwise the percentage change from the previous row. -/
def pctChange100 (xs : List ℚ) (i : Nat) : Option ℚ :=
  if i = 0 then none
  else some ((xs.getD i 0 - xs.getD (i - 1) 0) / xs.getD (i - 1) 0 * 100)

/-- The `'>'` / `'<'` operator strings of the UI. -/
inductive CmpOp
  | gt
  | lt
deriving DecidableEq

/-- The daily-change band options of the UI (`'3~5'`, `'5~7'`, `'7~9'`,
`'9이상'`, app.py:126-129). -/
inductive ChangeRange
  | r3to5
  | r5to7
  | r7to9
  | r9plus
deriving DecidableEq

/-- The volume-change band options (`'100~200'`, `'200~300'`, `'300이상'`,
app.py:144-146). -/
inductive VolRange
  | r100to200
  | r200to300
  | r300plus
deriving DecidableEq

/-- The `'상승'` / `'하락'` direction options. -/
inductive Dir
  | up
  | down
deriving DecidableEq

/-- `(r_min, r_max)` for a daily-change band; `none` is `float('inf')`. -/
def changeBand : ChangeRange → ℚ × Option ℚ
  | .r3to5 => (3, some 5)
  | .r5to7 => (5, some 7)
  | .r7to9 => (7, some 9)
  | .r9plus => (9, none)

/-- `(v_min, v_max)` for a volume band; `none` is `float('inf')`. -/
def volBand : VolRange → ℚ × Option ℚ
  | .r100to200 => (100, some 200)
  | .r200to300 => (200, some 300)
  | .r300plus => (300, none)

/-- `ret >= bmin` with a possibly-`NaN` left side. -/
def oGeQ (r : Option ℚ) (bmin : ℚ) : Bool :=
  match r with
  | some v => decide (bmin ≤ v)
  | none => false

/-- `ret <= bmin` with a possibly-`NaN` left side. -/
def oLeQ (r : Option ℚ) (bmin : ℚ) : Bool :=
  match r with
  | some v => decide (v ≤ bmin)
  | none => false

/-- `ret < r_max` where `r_max` may be `float('inf')` (`none`). -/
def oLtB (r : Option ℚ) (bmax : Option ℚ) : Bool :=
  match r, bmax with
  | some v, some b => decide (v < b)
  | some _, none => true
  | none, _ => false

/-- `ret > -r_max` where `r_max` may be `float('inf')`. -/
def oGtNegB (r : Option ℚ) (bmax : Option ℚ) : Bool :=
  match r, bmax with
  | some v, some b => decide (-b < v)
  | some _, none => true
  | none, _ => false

/-- The shared banded-range test of rules 3 and 4 (app.py:131-134, 148-151):
up means `(ret >= bmin) & (ret < bmax)`, down means
`(ret <= -bmin) & (ret > -bmax)`. -/
def bandHit (r : Option ℚ) (bmin : ℚ) (bmax : Option ℚ) : Dir → Bool
  | .up => oGeQ r bmin && oLtB r bmax
  | .down => oLeQ r (-bmin) && oGtNegB r bmax

/-- Parameters of rule 1 (`condition_params['ma']`). -/
structure MAParams where
  ma1 : Nat
  ma2 : Nat
  ma3 : Nat
deriving DecidableEq

/-- Parameters of rule 1.5 (`condition_params['ma_cross']`). -/
structure CrossParams where
  ma1 : Nat
  op : CmpOp
  ma2 : Nat
deriving DecidableEq

/-- The `'시가'` / `'종가'` price-field choice of rule 2. -/
inductive PriceField
  | openF
  | closeF
deriving DecidableEq

/-- Parameters of rule 2 (`condition_params['breakout']`). -/
structure BreakoutParams where
  field : PriceField
  op : CmpOp
  targetMa : Nat
deriving DecidableEq

/-- Parameters of rule 3 (`condition_params['change']`). -/
structure ChangeParams where
  rng : ChangeRange
  dir : Dir
deriving DecidableEq

/-- Parameters of rule 4 (`condition_params['volume']`). -/
structure VolumeParams where
  rng : VolRange
  dir : Dir
deriving DecidableEq

/-- Rule 1, MA alignment (app.py:80-84):
`MA(ma1) > MA(ma2) & MA(ma2) > MA(ma3)` elementwise. -/
def maMask (p : MAParams) (bars : List Bar) : List Bool :=
  let closes := bars.map Bar.close
  let m1 := rollingMean p.ma1 closes
  let m2 := rollingMean p.ma2 closes
  let m3 := rollingMean p.ma3 closes
  (List.range bars.length).map (fun i =>
    oGt (m1.getD i none) (m2.getD i none) && oGt (m2.getD i none) (m3.getD i none))

/-- The elementwise core of rule 1.5 (app.py:87-103) on two already-computed
MA columns: `shift(1)` of each column, then
`(prev1 <= prev2) & (cur1 > cur2)` for `'>'` and
`(prev1 >= prev2) & (cur1 < cur2)` for `'<'`. -/
def crossCore (op : CmpOp) (ma1 ma2 : List (Option ℚ)) : List Bool :=
  (List.range ma1.length).map (fun i =>
    let p1 := if i = 0 then none else ma1.getD (i - 1) none
    let p2 := if i = 0 then none else ma2.getD (i - 1) none
    let c1 := ma1.getD i none
    let c2 := ma2.getD i none
    match op with
    | .gt => oLe p1 p2 && oGt c1 c2
    | .lt => oGe p1 p2 && oLt c1 c2)

/-- Rule 1.5 on a price frame: the core applied to the two MA columns. -/
def crossMask (p : CrossParams) (bars : List Bar) : List Bool :=
  let closes := bars.map Bar.close
  crossCore p.op (rollingMean p.ma1 closes) (rollingMean p.ma2 closes)

/-- Rule 2, price-vs-MA breakout (app.py:106-117). -/
def breakoutMask (p : BreakoutParams) (bars : List Bar) : List Bool :=
  let closes := bars.map Bar.close
  let prices := match p.field with
    | .openF => bars.map Bar.openP
    | .closeF => closes
  let m := rollingMean p.targetMa closes
  (List.range bars.length).map (fun i =>
    match p.op with
    | .gt => oGt (some (prices.getD i 0)) (m.getD i none)
    | .lt => oLt (some (prices.getD i 0)) (m.getD i none))

/-- Rule 3, daily-change band (app.py:120-135). -/
def changeMask (p : ChangeParams) (bars : List Bar) : List Bool :=
  let closes := bars.map Bar.close
  let b := changeBand p.rng
  (List.range bars.length).map (fun i =>
    bandHit (pctChange100 closes i) b.1 b.2 p.dir)

/-- Rule 4, volume-change band (app.py:138-152). -/
def volumeMask (p : VolumeParams) (bars : List Bar) : List Bool :=
  let vols := bars.map Bar.volume
  let b := volBand p.rng
  (List.range bars.length).map (fun i =>
    bandHit (pctChange100 vols i) b.1 b.2 p.dir)

/-- The `params` dictionary handed to `check_conditions`: a key is enabled
iff its `Option` is `some`.  `fundamental = some fp` models
`'fundamental' in params`. -/
structure FundParams where
  apiKey : Bool
  rev3y : Option ℚ
  rev3q : Option ℚ
  op3y : Option ℚ
  op3q : Option ℚ
  margin3y : Option ℚ
  margin3q : Option ℚ
  net3y : Option ℚ
  net3q : Option ℚ
  fcf3y : Option ℚ
  fcf3q : Option ℚ
  debtMax : Option ℚ
deriving DecidableEq

structure ConditionSpec where
  ma : Option MAParams
  maCross : Option CrossParams
  breakout : Option BreakoutParams
  change : Option ChangeParams
  volume : Option VolumeParams
  fundamental : Option FundParams

/-- `combined_mask = combined_mask & mask` for an optionally-enabled rule. -/
def andMask (m : List Bool) : Option (List Bool) → List Bool
  | none => m
  | some m2 => List.zipWith (· && ·) m m2

/-- `check_conditions` (app.py:70-158).  `fundCol` is the pre-computed
`df['Fundamental']` column when present (`'Fundamental' in df.columns`). -/
def check_conditions (bars : List Bar) (fundCol : Option (List Bool))
    (spec : ConditionSpec) : List Bool :=
  if bars.length < 120 then List.replicate bars.length false
  else
    andMask
      (andMask
        (andMask
          (andMask
            (andMask
              (andMask (List.replicate bars.length true)
                (spec.ma.map (fun p => maMask p bars)))
              (spec.maCross.map (fun p => crossMask p bars)))
            (spec.breakout.map (fun p => breakoutMask p bars)))
          (spec.change.map (fun p => changeMask p bars)))
        (spec.volume.map (fun p => volumeMask p bars)))
      (if spec.fundamental.isSome then fundCol else none)

/-! ### Filing records, release dates, and sorting -/

/-- One normalized filing line item as returned by the filing provider
(`get_fundamental_data` output, one frame row), before
`process_fundamental_data` attaches its release date.  The string
`thstrm_amount` column is already coerced to a number (app.py:331). -/
structure RawFiling where
  account_nm : String
  reprt_code : String
  year : Int
  amount : ℚ
deriving DecidableEq, Inhabited

/-- `get_release_date` (app.py:349-356); `pd.Timestamp` is encoded as the
integer `year*10000 + month*100 + day`, which orders like the date. -/
def get_release_date (y : Int) (rc : String) : Int :=
  if rc = "11013" then y * 10000 + 515
  else if rc = "11012" then y * 10000 + 814
  else if rc = "11014" then y * 10000 + 1114
  else if rc = "11011" then (y + 1) * 10000 + 331
  else y * 10000 + 1231

/-- A filing row after the `release_date` column has been added. -/
structure FRow where
  account_nm : String
  reprt_code : String
  year : Int
  amount : ℚ
  release : Int
deriving DecidableEq, Inhabited

/-- `fund_df['release_date'] = fund_df.apply(get_release_date, axis=1)`
(app.py:358). -/
def toFRow (f : RawFiling) : FRow :=
  ⟨f.account_nm, f.reprt_code, f.year, f.amount, get_release_date f.year f.reprt_code⟩

/-- Stable insertion of `a` into a key-sorted list: `a` goes before the first
element of strictly larger or equal key, so earlier rows keep priority. -/
def insertK {α : Type} (k : α → Int) (a : α) : List α → List α
  | [] => [a]
  | b :: l => if k a ≤ k b then a :: b :: l else b :: insertK k a l

/-- `DataFrame.sort_values(key)` modelled as a stable sort. -/
def sortK {α : Type} (k : α → Int) : List α → List α
  | [] => []
  | a :: l => insertK k a (sortK k l)

/-- `drop_duplicates(subset=['year'], keep='last')` (app.py:244, 296): keep a
row iff no later row carries the same year. -/
def dedupYearKeepLast : List FRow → List FRow
  | [] => []
  | a :: as =>
    if as.any (fun b => b.year == a.year) then dedupYearKeepLast as
    else a :: dedupYearKeepLast as

/-! ### The interval-broadcast loops of the streak evaluators -/

/-- Whether the loop iteration for window `i` marks calendar day `d`
(app.py:270-276, 313-319, 448-453): the day is marked when
`dates[i] <= d` and, when a next filing exists, `d < dates[i+1]`.
(`if next_dt:` on a `numpy.datetime64` is falsy only at the 1970-01-01
epoch, a date `get_release_date` never produces, so the bounded branch is
taken exactly when a next date exists.) -/
def coverB (dates : List Int) (i : Nat) (d : Int) : Bool :=
  if i + 1 < dates.length then
    decide (dates.getD i 0 ≤ d) && decide (d < dates.getD (i + 1) 0)
  else decide (dates.getD i 0 ≤ d)

/-- The `for i in range(lo, len(dates))` loop that starts from an all-`False`
series over `idx` and sets `[dates[i], dates[i+1])` (or `[dates[i], ∞)`) to
`True` whenever the window condition `ok i` holds. -/
def broadcastMask (idx : List Int) (dates : List Int) (lo : Nat)
    (ok : Nat → Bool) : List Bool :=
  (List.range' lo (dates.length - lo)).foldl
    (fun mask i =>
      if ok i then List.zipWith (fun d b => b || coverB dates i d) idx mask
      else mask)
    (idx.map (fun _ => false))

/-- The `'year'` / `'quarter'` argument of the streak evaluators. -/
inductive PeriodType
  | year
  | quarter
deriving DecidableEq

/-- The period filtering shared by `calculate_growth_mask` and
`calculate_surplus_mask` (app.py:233-248, 287-298): restrict to the metric,
sort by release date, then for `year` keep annual reports only sorted by year
deduplicated keeping the last row per year, and for `quarter` sort by release
date (again). -/
def growthTarget (dfMain : List FRow) (itemName : String)
    (periodType : PeriodType) : List FRow :=
  let dfItem := (dfMain.filter (fun r => r.account_nm == itemName))
  let sorted := sortK FRow.release dfItem
  match periodType with
  | .year =>
    dedupYearKeepLast (sortK FRow.year (sorted.filter (fun r => r.reprt_code == "11011")))
  | .quarter => sortK FRow.release sorted

/-- `(cur - prev) / abs(prev) * 100 if prev != 0 else 0` (app.py:265-267). -/
def growthPct (prev cur : ℚ) : ℚ :=
  if prev ≠ 0 then (cur - prev) / |prev| * 100 else 0

/-- `g1 >= n and g2 >= n and g3 >= n` for the window ending at `i`
(app.py:261-269). -/
def growthOk (n : ℚ) (values : List ℚ) (i : Nat) : Bool :=
  let v0 := values.getD (i - 3) 0
  let v1 := values.getD (i - 2) 0
  let v2 := values.getD (i - 1) 0
  let v3 := values.getD i 0
  decide (n ≤ growthPct v0 v1) && decide (n ≤ growthPct v1 v2) &&
    decide (n ≤ growthPct v2 v3)

/-- `calculate_growth_mask` (app.py:227-281). -/
def calculate_growth_mask (dfMain : List FRow) (itemName : String)
    (periodType : PeriodType) (nPercent : ℚ) (dateIndex : List Int) : List Bool :=
  if (dfMain.filter (fun r => r.account_nm == itemName)).isEmpty then
    dateIndex.map (fun _ => false)
  else
    let target := growthTarget dfMain itemName periodType
    let values := target.map FRow.amount
    let dates := target.map FRow.release
    if values.length < 4 then dateIndex.map (fun _ => false)
    else broadcastMask dateIndex dates 3 (growthOk nPercent values)

/-- `v0 > 0 and v1 > 0 and v2 > 0` for the window ending at `i`
(app.py:310-312). -/
def surplusOk (values : List ℚ) (i : Nat) : Bool :=
  decide (0 < values.getD (i - 2) 0) && decide (0 < values.getD (i - 1) 0) &&
    decide (0 < values.getD i 0)

/-- `calculate_surplus_mask` (app.py:283-321); its period filtering is
literally that of `calculate_growth_mask`. -/
def calculate_surplus_mask (dfMain : List FRow) (itemName : String)
    (periodType : PeriodType) (dateIndex : List Int) : List Bool :=
  if (dfMain.filter (fun r => r.account_nm == itemName)).isEmpty then
    dateIndex.map (fun _ => false)
  else
    let target := growthTarget dfMain itemName periodType
    let values := target.map FRow.amount
    let dates := target.map FRow.release
    if values.length < 3 then dateIndex.map (fun _ => false)
    else broadcastMask dateIndex dates 2 (surplusOk values)

/-! ### Derived-series synthesis (FCF and operating margin) -/

/-- One merged FCF row: `fcf = ocf - abs(capex)` (app.py:379); `fillna(0)`
makes a missing capital-expenditure partner contribute `0`. -/
def fcfMergeRow (r : FRow) (cap : ℚ) : FRow :=
  ⟨"FCF", r.reprt_code, r.year, r.amount - |cap|, r.release⟩

/-- The FCF block of `process_fundamental_data` (app.py:365-386): no rows
when operating cash flow is absent; `fcf = ocf` when no capital-expenditure
rows exist at all; otherwise a left merge on `(year, reprt_code)` with
`fillna(0)`. -/
def fcfRows (F : List FRow) : List FRow :=
  let ocf := F.filter (fun r => r.account_nm == "영업활동현금흐름")
  let capex := F.filter (fun r => r.account_nm == "유형자산의취득")
  if ocf.isEmpty then []
  else if capex.isEmpty then
    ocf.map (fun r => ⟨"FCF", r.reprt_code, r.year, r.amount, r.release⟩)
  else
    ocf.flatMap (fun r =>
      let ms := capex.filter (fun c => c.year == r.year && c.reprt_code == r.reprt_code)
      if ms.isEmpty then [fcfMergeRow r 0]
      else ms.map (fun c => fcfMergeRow r c.amount))

/-- The operating-margin block of `process_fundamental_data`
(app.py:389-402): an inner merge of revenue and operating-income rows on
`(year, reprt_code)` with `op / rev * 100` (or `0` for zero revenue),
keeping the revenue row's release date. -/
def marginRows (F : List FRow) : List FRow :=
  let rev := F.filter (fun r => r.account_nm == "매출액")
  let opi := F.filter (fun r => r.account_nm == "영업이익")
  rev.flatMap (fun r =>
    (opi.filter (fun o => o.year == r.year && o.reprt_code == r.reprt_code)).map
      (fun o => ⟨"영업이익률", r.reprt_code, r.year,
        if r.amount ≠ 0 then o.amount / r.amount * 100 else 0, r.release⟩))

/-! ### The debt-ratio gate -/

/-- Adjacent deduplication of an already-sorted list (the unique, sorted
index of the pivot table). -/
def dedupAdj : List Int → List Int
  | [] => []
  | [a] => [a]
  | a :: b :: rest =>
    if a == b then dedupAdj (b :: rest) else a :: dedupAdj (b :: rest)

/-- The sorted unique `release_date` index of
`fund_df.pivot_table(index='release_date', ...).sort_index()` (app.py:433). -/
def pivotDates (F : List FRow) : List Int :=
  dedupAdj (sortK id (F.map FRow.release))

/-- One pivot cell with `aggfunc='last'`: the last row of the frame carrying
this release date and account, if any (`row.get` yields `None`/`NaN` for a
missing cell). -/
def pivotGet (F : List FRow) (t : Int) (a : String) : Option ℚ :=
  ((F.filter (fun r => r.release == t && r.account_nm == a)).getLast?).map FRow.amount

/-- Whether the pivot row at `pivotDates[i]` passes the debt gate
(app.py:436-453): equity and liabilities both present, positive equity, and
`liab / equity * 100 <= limit`. -/
def debtOk (F : List FRow) (limit : ℚ) (i : Nat) : Bool :=
  let t := (pivotDates F).getD i 0
  match pivotGet F t "자본총계", pivotGet F t "부채총계" with
  | some e, some l => decide (0 < e) && decide (l / e * 100 ≤ limit)
  | _, _ => false

/-- The debt-ratio branch of `process_fundamental_data` (app.py:421-457);
its `if next_dt:` test sees a `pd.Timestamp`, which is always truthy, so the
bounded branch is taken exactly when a next pivot date exists, as in
`coverB`. -/
def debtMask (F : List FRow) (limit : ℚ) (idx : List Int) : List Bool :=
  broadcastMask idx (pivotDates F) 0 (debtOk F limit)

/-! ### The fundamental condition evaluator -/

/-- `final_mask = final_mask & calculate_growth_mask(...)` for one enabled
growth key (app.py:481-482). -/
def applyG (m : List Bool) (F : List FRow) (item : String) (per : PeriodType)
    (v : Option ℚ) (idx : List Int) : List Bool :=
  match v with
  | none => m
  | some n => List.zipWith (· && ·) m (calculate_growth_mask F item per n idx)

/-- `final_mask = final_mask & calculate_surplus_mask(...)` for an enabled
FCF key (app.py:478-479); the stored value (always `0`) is ignored. -/
def applyS (m : List Bool) (F : List FRow) (item : String) (per : PeriodType)
    (v : Option ℚ) (idx : List Int) : List Bool :=
  match v with
  | none => m
  | some _ => List.zipWith (· && ·) m (calculate_surplus_mask F item per idx)

/-- `final_mask = final_mask & ratio_mask` for an enabled debt ceiling
(app.py:457). -/
def applyD (m : List Bool) (F : List FRow) (v : Option ℚ) (idx : List Int) : List Bool :=
  match v with
  | none => m
  | some limit => List.zipWith (· && ·) m (debtMask F limit idx)

/-- The working frame of `process_fundamental_data` after release dates are
attached (app.py:358) and the FCF and margin rows are appended
(app.py:365-402). -/
def pfdRows (fund : List RawFiling) : List FRow :=
  let f1 := fund.map toFRow
  let f2 := f1 ++ fcfRows f1
  f2 ++ marginRows f2

/-- `process_fundamental_data` (app.py:323-484).  The source iterates over
the `params` dictionary in insertion order; as every step is an `&` onto
`final_mask`, the fixed order used here yields the same series.  The dead
pivot block at app.py:334-346 computes a local frame and discards it, and is
omitted. -/
def process_fundamental_data (dateIndex : List Int) (fund : List RawFiling)
    (ps : FundParams) : List Bool :=
  if fund.isEmpty then dateIndex.map (fun _ => false)
  else
    let f3 := pfdRows fund
    let m0 := dateIndex.map (fun _ => true)
    let m1 := applyG m0 f3 "매출액" .year ps.rev3y dateIndex
    let m2 := applyG m1 f3 "매출액" .quarter ps.rev3q dateIndex
    let m3 := applyG m2 f3 "영업이익" .year ps.op3y dateIndex
    let m4 := applyG m3 f3 "영업이익" .quarter ps.op3q dateIndex
    let m5 := applyG m4 f3 "영업이익률" .year ps.margin3y dateIndex
    let m6 := applyG m5 f3 "영업이익률" .quarter ps.margin3q dateIndex
    let m7 := applyG m6 f3 "당기순이익" .year ps.net3y dateIndex
    let m8 := applyG m7 f3 "당기순이익" .quarter ps.net3q dateIndex
    let m9 := applyS m8 f3 "FCF" .year ps.fcf3y dateIndex
    let m10 := applyS m9 f3 "FCF" .quarter ps.fcf3q dateIndex
    applyD m10 f3 ps.debtMax dateIndex

/-! ### The per-stock pipeline -/

/-- The `df['Fundamental']` column construction of `backtest_single_stock`
(app.py:512-528): absent when no fundamental condition is requested; an
all-`False` column when the API key is missing or the provider returned
nothing; otherwise `process_fundamental_data`.  `fetch` is the
`get_fundamental_data` result (an external provider call). -/
def fundamentalColumn (idx : List Int) (spec : ConditionSpec)
    (fetch : Option (List RawFiling)) : Option (List Bool) :=
  match spec.fundamental with
  | none => none
  | some fp =>
    if fp.apiKey then
      match fetch with
      | none => some (idx.map (fun _ => false))
      | some l =>
        if l.isEmpty then some (idx.map (fun _ => false))
        else some (process_fundamental_data idx l fp)
    else some (idx.map (fun _ => false))

/-- `df['Signal'] = check_conditions(df, condition)` (app.py:531) over the
full fetched frame, with the fundamental column prepared as in
`backtest_single_stock`. -/
def signalSeries (bars : List Bar) (spec : ConditionSpec)
    (fetch : Option (List RawFiling)) : List Bool :=
  check_conditions bars (fundamentalColumn (bars.map Bar.date) spec fetch) spec

/-! ### The backtest simulator -/

/-- Python's banker's rounding to an integer. -/
def roundHalfEven (x : ℚ) : Int :=
  let f := ⌊x⌋
  if x - f < 1 / 2 then f
  else if (1 : ℚ) / 2 < x - f then f + 1
  else if Even f then f else f + 1

/-- `round(x, 2)` (app.py:567, 1050-1051). -/
def round2 (x : ℚ) : ℚ := (roundHalfEven (x * 100) : ℚ) / 100

/-- One emitted trade record (one `results.append` dict, app.py:561-569);
`up = true` is the `'상승'` outcome. -/
structure Trade where
  entryDate : Int
  entryPrice : ℚ
  exitDate : Int
  exitPrice : ℚ
  returnPct : ℚ
  up : Bool
deriving DecidableEq, Inhabited

/-- Build the record for entry `(d, c)` exiting at `(xd, xc)`
(app.py:558-569): the stored return is rounded to two decimals, the outcome
is `'상승'` exactly when the unrounded return is positive. -/
def mkTradeRow (d : Int) (c : ℚ) (xd : Int) (xc : ℚ) : Trade :=
  let pct := (xc - c) / c * 100
  ⟨d, c, xd, xc, round2 pct, decide (0 < pct)⟩

/-- The trade loop of `backtest_single_stock` (app.py:533-573): filter the
frame to in-window signal days, then for each such day locate its integer
position in the full frame, clamp `position + n` to the last index, and emit
a record when the clamped exit position is strictly later. -/
def backtest_trades (df : List (Int × ℚ)) (sig : List Bool) (sd ed : Int)
    (n : Nat) : List Trade :=
  let target := (df.zip sig).filter
    (fun rb => rb.2 && decide (sd ≤ rb.1.1) && decide (rb.1.1 ≤ ed))
  target.filterMap (fun rb =>
    match df.findIdx? (fun r => r.1 == rb.1.1) with
    | none => none
    | some ci =>
      let fi := if df.length ≤ ci + n then df.length - 1 else ci + n
      if ci < fi then
        some (mkTradeRow rb.1.1 rb.1.2 (df.getD fi (0, 0)).1 (df.getD fi (0, 0)).2)
      else none)

/-- `win_trades = len(result_df[result_df['수익률(%)'] > 0])` of the tab-1
summary (app.py:748). -/
def win_trades (rs : List Trade) : Nat :=
  (rs.filter (fun t => decide (0 < t.returnPct))).length

/-- `win_cnt = len(res[res['수익률(%)'] > 0])` of the tab-2 scan loop
(app.py:1042). -/
def scan_win_cnt (rs : List Trade) : Nat :=
  (rs.filter (fun t => decide (0 < t.returnPct))).length

/-! ### The scan aggregator -/

structure Security where
  code : String
  name : String
deriving DecidableEq

/-- One per-security scan summary row (app.py:1046-1052). -/
structure ScanSummary where
  name : String
  code : String
  occur : Nat
  avgPct : ℚ
  winPct : ℚ
deriving DecidableEq

/-- `get_fundamental_data` at its provider boundary (app.py:160-225): the
whole body is wrapped in `try`/`except` returning `None`, and an empty
collection also yields `None`; `resp` is the raw provider response. -/
def get_fundamental_data_model (resp : Except String (List RawFiling)) :
    Option (List RawFiling) :=
  match resp with
  | .error _ => none
  | .ok l => if l.isEmpty then none else some l

/-- `backtest_single_stock` after the price frame has been fetched
(app.py:486-573): `None` for an empty frame (app.py:492-493), otherwise the
emitted trade list.  The price fetch itself (`fdr.DataReader`) is not inside
any `try`, so a raising fetch is modelled by the caller receiving the
`Except.error` before this function runs. -/
def backtest_single_stock (df : List Bar)
    (fundResp : Except String (List RawFiling)) (spec : ConditionSpec)
    (sd ed : Int) (n : Nat) : Option (List Trade) :=
  if df.isEmpty then none
  else some (backtest_trades (df.map (fun b => (b.date, b.close)))
    (signalSeries df spec (get_fundamental_data_model fundResp)) sd ed n)

/-- `round(win_cnt / len(res) * 100, 2)` and `round(avg, 2)` summary row
(app.py:1040-1052). -/
def mkSummary (s : Security) (ts : List Trade) : ScanSummary :=
  ⟨s.name, s.code, ts.length,
    round2 ((ts.map Trade.returnPct).sum / (ts.length : ℚ)),
    round2 ((scan_win_cnt ts : ℚ) / (ts.length : ℚ) * 100)⟩

/-- The tab-2 scan loop (app.py:1030-1052): each security's price frame is
fetched with no surrounding `try`, so a raising fetch propagates and aborts
the loop; a `None`/empty result is skipped and the loop continues. -/
def scanStocks (secs : List Security)
    (fetchP : Security → Except String (List Bar))
    (fetchF : Security → Except String (List RawFiling))
    (spec : ConditionSpec) (sd ed : Int) (n : Nat) :
    Except String (List ScanSummary) :=
  match secs with
  | [] => Except.ok []
  | s :: rest =>
    match fetchP s with
    | .error e => .error e
    | .ok df =>
      let res := backtest_single_stock df (fetchF s) spec sd ed n
      match scanStocks rest fetchP fetchF spec sd ed n with
      | .error e => .error e
      | .ok tail =>
        match res with
        | none => .ok tail
        | some ts => if ts.isEmpty then .ok tail else .ok (mkSummary s ts :: tail)

/-! ## Basic bridging lemmas -/

lemma getD_range_map {α : Type} (n : Nat) (f : Nat → α) (i : Nat) (hi : i < n) (d : α) :
    ((List.range n).map f).getD i d = f i := by
  rw [List.getD_eq_getElem?_getD, List.getElem?_map, List.getElem?_range hi]
  rfl

lemma length_range_map {α β : Type} (n : Nat) (f : Nat → β) :
    ((List.range n).map f).length = n := by
  simp

lemma getD_of_take_eq {α : Type} {l1 l2 : List α} {n : Nat}
    (h : l1.take n = l2.take n) {i : Nat} (hi : i < n) (d : α) :
    l1.getD i d = l2.getD i d := by
  rw [List.getD_eq_getElem?_getD, List.getD_eq_getElem?_getD]
  have h1 : (l1.take n)[i]? = l1[i]? := by rw [List.getElem?_take]; simp [hi]
  have h2 : (l2.take n)[i]? = l2[i]? := by rw [List.getElem?_take]; simp [hi]
  rw [← h1, ← h2, h]

lemma getD_zipWith_and (m1 m2 : List Bool) (i : Nat) (h1 : i < m1.length)
    (h2 : i < m2.length) :
    (List.zipWith (· && ·) m1 m2).getD i false = (m1.getD i false && m2.getD i false) := by
  rw [List.getD_eq_getElem?_getD, List.getD_eq_getElem?_getD, List.getD_eq_getElem?_getD,
    List.getElem?_zipWith, List.getElem?_eq_getElem h1, List.getElem?_eq_getElem h2]
  rfl

lemma oGt_iff (a b : Option ℚ) : oGt a b = true ↔ ∃ x y, a = some x ∧ b = some y ∧ y < x := by
  cases a <;> cases b <;> simp [oGt]

lemma oLt_iff (a b : Option ℚ) : oLt a b = true ↔ ∃ x y, a = some x ∧ b = some y ∧ x < y := by
  cases a <;> cases b <;> simp [oLt]

lemma oGe_iff (a b : Option ℚ) : oGe a b = true ↔ ∃ x y, a = some x ∧ b = some y ∧ y ≤ x := by
  cases a <;> cases b <;> simp [oGe]

lemma oLe_iff (a b : Option ℚ) : oLe a b = true ↔ ∃ x y, a = some x ∧ b = some y ∧ x ≤ y := by
  cases a <;> cases b <;> simp [oLe]

/-! ## C2: short price history disables every technical rule -/

/-- C2.  For every price series with fewer than 120 bars and every
`ConditionSpec` (any combination of enabled rules, any fundamental column),
the technical evaluator returns the all-false boolean series aligned to the
series' index. -/
theorem C2_short_series_all_false (bars : List Bar) (fundCol : Option (List Bool))
    (spec : ConditionSpec) (h : bars.length < 120) :
    check_conditions bars fundCol spec = List.replicate bars.length false := by
  unfold check_conditions
  rw [if_pos h]

/-- Witness for C2 at a concrete three-bar series with every rule enabled. -/
theorem C2_short_series_all_false_witness :
    ([⟨1, 1, 1, 1⟩, ⟨2, 1, 1, 1⟩, ⟨3, 1, 1, 1⟩] : List Bar).length < 120 ∧
      check_conditions [⟨1, 1, 1, 1⟩, ⟨2, 1, 1, 1⟩, ⟨3, 1, 1, 1⟩]
        (some [true, true, true])
        ⟨some ⟨20, 60, 120⟩, some ⟨20, .gt, 60⟩, some ⟨.closeF, .gt, 20⟩,
          some ⟨.r3to5, .up⟩, some ⟨.r100to200, .up⟩,
          some ⟨true, some 0, none, none, none, none, none, none, none, none, none, none⟩⟩
        = List.replicate 3 false :=
  ⟨by decide, C2_short_series_all_false _ _ _ (by decide)⟩

/-! ## C3: the cross rule is transition-only -/

/-- The comparison selected by the cross rule's operator. -/
def cmpHolds : CmpOp → ℚ → ℚ → Prop
  | .gt, a, b => b < a
  | .lt, a, b => a < b

/-- The inverse comparison required of the previous bar. -/
def cmpInv : CmpOp → ℚ → ℚ → Prop
  | .gt, a, b => a ≤ b
  | .lt, a, b => b ≤ a

/-- C3.  The cross mask is true at exactly the bars where the inequality
between the two MA columns strictly flips: the previous bar satisfies the
inverse comparison and the current bar the chosen comparison;
it is never true where the chosen inequality already held on the previous
bar; and on MA-left `[18,19,20,21]` versus MA-right `[20,20,20,19]` with
operator `>` it fires only at index 3. -/
theorem C3_cross_transition_only :
    (∀ (op : CmpOp) (l r : List (Option ℚ)) (i : Nat), i < l.length →
      ((crossCore op l r).getD i false = true ↔
        (1 ≤ i ∧
          (∃ x y, l.getD (i - 1) none = some x ∧ r.getD (i - 1) none = some y ∧
            cmpInv op x y) ∧
          (∃ x y, l.getD i none = some x ∧ r.getD i none = some y ∧
            cmpHolds op x y)))) ∧
    (∀ (op : CmpOp) (l r : List (Option ℚ)) (i : Nat), i < l.length → 1 ≤ i →
      (∃ x y, l.getD (i - 1) none = some x ∧ r.getD (i - 1) none = some y ∧
        cmpHolds op x y) →
      (crossCore op l r).getD i false = false) ∧
    crossCore .gt [some 18, some 19, some 20, some 21]
        [some 20, some 20, some 20, some 19] = [false, false, false, true] := by
  have char : ∀ (op : CmpOp) (l r : List (Option ℚ)) (i : Nat), i < l.length →
      ((crossCore op l r).getD i false = true ↔
        (1 ≤ i ∧
          (∃ x y, l.getD (i - 1) none = some x ∧ r.getD (i - 1) none = some y ∧
            cmpInv op x y) ∧
          (∃ x y, l.getD i none = some x ∧ r.getD i none = some y ∧
            cmpHolds op x y))) := by
    intro op l r i hi
    unfold crossCore
    rw [getD_range_map _ _ _ hi]
    rcases Nat.eq_zero_or_pos i with h0 | h0
    · subst h0
      cases op <;>
        simp [oLe, oGe, oGt, oLt]
    · have hne : ¬ i = 0 := Nat.pos_iff_ne_zero.mp h0
      cases op
      · simp only [if_neg hne, Bool.and_eq_true, oLe_iff, oGt_iff, cmpInv, cmpHolds]
        constructor
        · rintro ⟨⟨x, y, hx, hy, hxy⟩, ⟨u, v, hu, hv, huv⟩⟩
          exact ⟨h0, ⟨x, y, hx, hy, hxy⟩, ⟨u, v, hu, hv, huv⟩⟩
        · rintro ⟨-, ⟨x, y, hx, hy, hxy⟩, ⟨u, v, hu, hv, huv⟩⟩
          exact ⟨⟨x, y, hx, hy, hxy⟩, ⟨u, v, hu, hv, huv⟩⟩
      · simp only [if_neg hne, Bool.and_eq_true, oGe_iff, oLt_iff, cmpInv, cmpHolds]
        constructor
        · rintro ⟨⟨x, y, hx, hy, hxy⟩, ⟨u, v, hu, hv, huv⟩⟩
          exact ⟨h0, ⟨x, y, hx, hy, hxy⟩, ⟨u, v, hu, hv, huv⟩⟩
        · rintro ⟨-, ⟨x, y, hx, hy, hxy⟩, ⟨u, v, hu, hv, huv⟩⟩
          exact ⟨⟨x, y, hx, hy, hxy⟩, ⟨u, v, hu, hv, huv⟩⟩
  refine ⟨char, ?_, by decide⟩
  intro op l r i hi h1 ⟨x, y, hx, hy, hxy⟩
  rcases Bool.eq_false_or_eq_true ((crossCore op l r).getD i false) with ht | hf
  swap
  · exact hf
  · exfalso
    rcases (char op l r i hi).mp ht with ⟨-, ⟨x', y', hx', hy', hxy'⟩, -⟩
    rw [hx] at hx'
    rw [hy] at hy'
    cases Option.some.inj hx'
    cases Option.some.inj hy'
    cases op
    · exact absurd hxy (not_lt.mpr hxy')
    · exact absurd hxy (not_lt.mpr hxy')

/-- Witness for C3: the characterisation applied at the spec's own example,
index 3. -/
theorem C3_cross_transition_only_witness :
    (crossCore CmpOp.gt [some 18, some 19, some 20, some 21]
      [some 20, some 20, some 20, some 19]).getD 3 false = true :=
  (C3_cross_transition_only.1 CmpOp.gt
      [some 18, some 19, some 20, some 21] [some 20, some 20, some 20, some 19] 3
      (by decide)).mpr
    ⟨by decide, ⟨20, 20, rfl, rfl, le_refl 20⟩, ⟨21, 19, rfl, rfl, by norm_num [cmpHolds]⟩⟩

/-! ## C4: the daily-change bands -/

/-- Counterexample to C4 as stated: with band `3~5` and direction down, a
−5 % return lies in the claimed closed band `[-5, -3]`, yet the mask is
false (the code requires `daily_ret > -r_max`, a strict bound). -/
theorem C4_counterexample :
    pctChange100 (([⟨1, 100, 100, 1⟩, ⟨2, 95, 95, 1⟩] : List Bar).map Bar.close) 1
        = some (-5) ∧
    (-(5 : ℚ) ≤ -5 ∧ (-5 : ℚ) ≤ -3) ∧
    (changeMask ⟨ChangeRange.r3to5, Dir.down⟩
        [⟨1, 100, 100, 1⟩, ⟨2, 95, 95, 1⟩]).getD 1 false = false := by
  have hret : pctChange100 [100, 95] 1 = some (-5) := by norm_num [pctChange100]
  refine ⟨hret, ⟨le_refl _, by norm_num⟩, ?_⟩
  have h1 : (changeMask ⟨ChangeRange.r3to5, Dir.down⟩
      [⟨1, 100, 100, 1⟩, ⟨2, 95, 95, 1⟩]).getD 1 false
      = bandHit (pctChange100 [100, 95] 1) 3 (some 5) Dir.down := by
    unfold changeMask
    rw [getD_range_map _ _ _ (by decide)]
    rfl
  rw [h1, hret]
  simp only [bandHit, oLeQ, oGtNegB, Bool.and_eq_true, decide_eq_true_eq]
  norm_num

/-- C4 amended.  The mask at bar `i` is true for direction up exactly when
the close-to-close percentage change lies in the half-open band
`[min, max)`, and for direction down exactly when it lies in the half-open
band `(-max, -min]` (the magnitude of the negative return lies in
`[min, max)`), with no upper bound for the open-ended `9이상` option. -/
theorem C4_change_band (p : ChangeParams) (bars : List Bar) (i : Nat)
    (hi : i < bars.length) :
    (changeMask p bars).getD i false = true ↔
      ∃ v, pctChange100 (bars.map Bar.close) i = some v ∧
        ((p.dir = Dir.up →
            (changeBand p.rng).1 ≤ v ∧
            ∀ M, (changeBand p.rng).2 = some M → v < M) ∧
         (p.dir = Dir.down →
            v ≤ -(changeBand p.rng).1 ∧
            ∀ M, (changeBand p.rng).2 = some M → -M < v)) := by
  unfold changeMask
  rw [getD_range_map _ _ _ hi]
  rcases p with ⟨rng, dir⟩
  cases dir
  · cases rng <;>
      · simp only [bandHit, changeBand, Bool.and_eq_true]
        cases pctChange100 (bars.map Bar.close) i <;>
          simp [oGeQ, oLtB]
  · cases rng <;>
      · simp only [bandHit, changeBand, Bool.and_eq_true]
        cases pctChange100 (bars.map Bar.close) i <;>
          simp [oLeQ, oGtNegB]

/-- Witness for C4: a −4 % day passes the `3~5` down band. -/
theorem C4_change_band_witness :
    (changeMask ⟨ChangeRange.r3to5, Dir.down⟩
        [⟨1, 100, 100, 1⟩, ⟨2, 96, 96, 1⟩]).getD 1 false = true :=
  by
  apply ((C4_change_band ⟨ChangeRange.r3to5, Dir.down⟩
      [⟨1, 100, 100, 1⟩, ⟨2, 96, 96, 1⟩] 1 (by decide))).mpr
  refine ⟨-4, by norm_num [pctChange100], ?_, ?_⟩
  · intro h
    exact nomatch h
  · intro h
    constructor
    · norm_num [changeBand]
    · intro M hM
      have hM5 : M = 5 := by
        simp only [changeBand] at hM
        exact (Option.some.inj hM).symm
      subst hM5
      norm_num

/-! ## C9: derived-series synthesis -/

/-- Counterexample to C9 as stated: a frame holding only an operating-cash-
flow row — no capital-expenditure row at all — still gets a synthesized FCF
row (with the missing source treated as `0`, app.py:367, 375), whereas the
claim says the derived series is omitted whenever any source account is
missing. -/
theorem C9_counterexample :
    (∀ r ∈ ([⟨"영업활동현금흐름", "11011", 2020, 50, 20210331⟩] : List FRow),
      r.account_nm ≠ "유형자산의취득") ∧
    fcfRows [⟨"영업활동현금흐름", "11011", 2020, 50, 20210331⟩]
      = [⟨"FCF", "11011", 2020, 50, 20210331⟩] := by
  exact ⟨by decide, by rfl⟩

/-- C9 amended.  Operating margin is synthesized exactly for the
`(year, report_code)` pairs in which both revenue and operating income are
present; FCF is synthesized exactly for the pairs in which operating cash
flow is present — a missing capital expenditure does not suppress the FCF
row but contributes `0` (the row keeps the operating-cash-flow amount). -/
theorem C9_derived_series (F : List FRow) (y : Int) (rc : String) :
    ((∃ m ∈ marginRows F, m.year = y ∧ m.reprt_code = rc) ↔
      ((∃ r ∈ F, r.account_nm = "매출액" ∧ r.year = y ∧ r.reprt_code = rc) ∧
       (∃ o ∈ F, o.account_nm = "영업이익" ∧ o.year = y ∧ o.reprt_code = rc))) ∧
    ((∃ m ∈ fcfRows F, m.year = y ∧ m.reprt_code = rc) ↔
      (∃ r ∈ F, r.account_nm = "영업활동현금흐름" ∧ r.year = y ∧ r.reprt_code = rc)) ∧
    ((F.filter (fun r => r.account_nm == "유형자산의취득")).isEmpty = true →
      ∀ m ∈ fcfRows F, ∃ r ∈ F, r.account_nm = "영업활동현금흐름" ∧
        r.year = m.year ∧ r.reprt_code = m.reprt_code ∧ m.amount = r.amount) := by
  refine ⟨?_, ?_, ?_⟩
  · unfold marginRows
    constructor
    · rintro ⟨m, hm, hy, hrc⟩
      rcases List.mem_flatMap.mp hm with ⟨r, hr, hmr⟩
      rcases List.mem_map.mp hmr with ⟨o, ho, hmo⟩
      rcases List.mem_filter.mp hr with ⟨hrF, hracc⟩
      rcases List.mem_filter.mp ho with ⟨hoF', hokey⟩
      rcases List.mem_filter.mp hoF' with ⟨hoF, hoacc⟩
      have hmy : m.year = r.year := by rw [← hmo]
      have hmrc : m.reprt_code = r.reprt_code := by rw [← hmo]
      have hkey : o.year = r.year ∧ o.reprt_code = r.reprt_code := by
        have := Bool.and_eq_true_iff.mp hokey
        exact ⟨by simpa using this.1, by simpa using this.2⟩
      refine ⟨⟨r, hrF, by simpa using hracc, ?_, ?_⟩, ⟨o, hoF, by simpa using hoacc, ?_, ?_⟩⟩
      · rw [← hy, hmy]
      · rw [← hrc, hmrc]
      · rw [hkey.1, ← hy, hmy]
      · rw [hkey.2, ← hrc, hmrc]
    · rintro ⟨⟨r, hrF, hracc, hry, hrrc⟩, ⟨o, hoF, hoacc, hoy, horc⟩⟩
      refine ⟨_, List.mem_flatMap.mpr ⟨r, List.mem_filter.mpr ⟨hrF, by simp [hracc]⟩,
        List.mem_map.mpr ⟨o, List.mem_filter.mpr
          ⟨List.mem_filter.mpr ⟨hoF, by simp [hoacc]⟩, ?_⟩, rfl⟩⟩, hry, hrrc⟩
      simp only [Bool.and_eq_true, beq_iff_eq]
      exact ⟨by rw [hoy, hry], by rw [horc, hrrc]⟩
  · unfold fcfRows
    by_cases hocf : (F.filter (fun r => r.account_nm == "영업활동현금흐름")).isEmpty
    · rw [if_pos hocf]
      simp only [List.not_mem_nil, false_and, exists_false, false_iff]
      rintro ⟨r, hrF, hracc, hry, hrrc⟩
      have : r ∈ F.filter (fun r => r.account_nm == "영업활동현금흐름") :=
        List.mem_filter.mpr ⟨hrF, by simp [hracc]⟩
      rw [List.isEmpty_iff] at hocf
      rw [hocf] at this
      exact List.not_mem_nil r this
    · rw [if_neg hocf]
      by_cases hcap : (F.filter (fun r => r.account_nm == "유형자산의취득")).isEmpty
      · rw [if_pos hcap]
        constructor
        · rintro ⟨m, hm, hy, hrc⟩
          rcases List.mem_map.mp hm with ⟨r, hr, hmr⟩
          rcases List.mem_filter.mp hr with ⟨hrF, hracc⟩
          refine ⟨r, hrF, by simpa using hracc, ?_, ?_⟩
          · rw [← hy, ← hmr]
          · rw [← hrc, ← hmr]
        · rintro ⟨r, hrF, hracc, hry, hrrc⟩
          exact ⟨_, List.mem_map.mpr ⟨r, List.mem_filter.mpr ⟨hrF, by simp [hracc]⟩, rfl⟩,
            hry, hrrc⟩
      · rw [if_neg hcap]
        constructor
        · rintro ⟨m, hm, hy, hrc⟩
          rcases List.mem_flatMap.mp hm with ⟨r, hr, hmr⟩
          rcases List.mem_filter.mp hr with ⟨hrF, hracc⟩
          have hmr' : m ∈ (if ((F.filter (fun c => c.account_nm == "유형자산의취득")).filter
                (fun c => c.year == r.year && c.reprt_code == r.reprt_code)).isEmpty then
                [fcfMergeRow r 0]
              else ((F.filter (fun c => c.account_nm == "유형자산의취득")).filter
                (fun c => c.year == r.year && c.reprt_code == r.reprt_code)).map
                  (fun c => fcfMergeRow r c.amount)) := hmr
          by_cases hms : ((F.filter (fun c => c.account_nm == "유형자산의취득")).filter
              (fun c => c.year == r.year && c.reprt_code == r.reprt_code)).isEmpty
          · rw [if_pos hms] at hmr'
            rcases List.mem_singleton.mp hmr' with rfl
            exact ⟨r, hrF, by simpa using hracc, hy, hrc⟩
          · rw [if_neg hms] at hmr'
            rcases List.mem_map.mp hmr' with ⟨c, hc, hmc⟩
            refine ⟨r, hrF, by simpa using hracc, ?_, ?_⟩
            · rw [← hy, ← hmc]
              rfl
            · rw [← hrc, ← hmc]
              rfl
        · rintro ⟨r, hrF, hracc, hry, hrrc⟩
          have hrmem : r ∈ F.filter (fun x => x.account_nm == "영업활동현금흐름") :=
            List.mem_filter.mpr ⟨hrF, by simp [hracc]⟩
          by_cases hms : ((F.filter (fun c => c.account_nm == "유형자산의취득")).filter
              (fun c => c.year == r.year && c.reprt_code == r.reprt_code)).isEmpty
          · refine ⟨fcfMergeRow r 0, List.mem_flatMap.mpr ⟨r, hrmem, ?_⟩, hry, hrrc⟩
            show fcfMergeRow r 0 ∈ (if ((F.filter (fun c => c.account_nm == "유형자산의취득")).filter
                (fun c => c.year == r.year && c.reprt_code == r.reprt_code)).isEmpty then
                [fcfMergeRow r 0]
              else ((F.filter (fun c => c.account_nm == "유형자산의취득")).filter
                (fun c => c.year == r.year && c.reprt_code == r.reprt_code)).map
                  (fun c => fcfMergeRow r c.amount))
            rw [if_pos hms]
            exact List.mem_singleton.mpr rfl
          · rcases hL : ((F.filter (fun c => c.account_nm == "유형자산의취득")).filter
                (fun c => c.year == r.year && c.reprt_code == r.reprt_code)) with - | ⟨c, cs⟩
            · exact absurd (by rw [hL]; rfl) hms
            · have hc : c ∈ ((F.filter (fun c => c.account_nm == "유형자산의취득")).filter
                  (fun c => c.year == r.year && c.reprt_code == r.reprt_code)) := by
                rw [hL]
                exact List.mem_cons_self c cs
              refine ⟨fcfMergeRow r c.amount, List.mem_flatMap.mpr ⟨r, hrmem, ?_⟩, hry, hrrc⟩
              show fcfMergeRow r c.amount ∈
                (if ((F.filter (fun c => c.account_nm == "유형자산의취득")).filter
                  (fun c => c.year == r.year && c.reprt_code == r.reprt_code)).isEmpty then
                  [fcfMergeRow r 0]
                else ((F.filter (fun c => c.account_nm == "유형자산의취득")).filter
                  (fun c => c.year == r.year && c.reprt_code == r.reprt_code)).map
                    (fun c => fcfMergeRow r c.amount))
              rw [if_neg hms]
              exact List.mem_map.mpr ⟨c, hc, rfl⟩
  · intro hcap m hm
    unfold fcfRows at hm
    by_cases hocf : (F.filter (fun r => r.account_nm == "영업활동현금흐름")).isEmpty
    · rw [if_pos hocf] at hm
      exact absurd hm (List.not_mem_nil m)
    · rw [if_neg hocf, if_pos hcap] at hm
      rcases List.mem_map.mp hm with ⟨r, hr, hmr⟩
      rcases List.mem_filter.mp hr with ⟨hrF, hracc⟩
      exact ⟨r, hrF, by simpa using hracc, by rw [← hmr], by rw [← hmr], by rw [← hmr]⟩

/-- Witness for C9: at a concrete frame with revenue but no operating
income, no margin row exists; with operating cash flow present an FCF row
exists. -/
theorem C9_derived_series_witness :
    ¬ (∃ m ∈ marginRows [⟨"매출액", "11011", 2020, 200, 20210331⟩],
        m.year = 2020 ∧ m.reprt_code = "11011") ∧
    (∃ m ∈ fcfRows [⟨"영업활동현금흐름", "11011", 2020, 50, 20210331⟩],
        m.year = 2020 ∧ m.reprt_code = "11011") :=
  ⟨fun h => by
      rcases (C9_derived_series [⟨"매출액", "11011", 2020, 200, 20210331⟩]
        2020 "11011").1.mp h with ⟨-, ⟨o, ho, hacc, -⟩⟩
      rcases List.mem_singleton.mp ho with rfl
      exact absurd hacc (by decide),
    (C9_derived_series [⟨"영업활동현금흐름", "11011", 2020, 50, 20210331⟩]
        2020 "11011").2.1.mpr
      ⟨⟨"영업활동현금흐름", "11011", 2020, 50, 20210331⟩,
        List.mem_singleton.mpr rfl, rfl, rfl, rfl⟩⟩

/-! ## C7: the fundamental gate fails closed -/

lemma getD_of_le_length {α : Type} (l : List α) (p : Nat) (d : α)
    (h : l.length ≤ p) : l.getD p d = d := by
  rw [List.getD_eq_getElem?_getD, List.getElem?_eq_none h]
  rfl

lemma getD_replicate_false (n p : Nat) :
    (List.replicate n false).getD p false = false := by
  rw [List.getD_eq_getElem?_getD, List.getElem?_replicate]
  split <;> rfl

lemma getD_map_false {α : Type} (l : List α) (p : Nat) :
    (l.map (fun _ => false)).getD p false = false := by
  rw [List.getD_eq_getElem?_getD, List.getElem?_map]
  cases l[p]? <;> rfl

lemma getD_zipWith_and_false (m f : List Bool) (p : Nat)
    (hf : f.getD p false = false) :
    (List.zipWith (· && ·) m f).getD p false = false := by
  by_cases hpm : p < m.length
  · by_cases hpf : p < f.length
    · rw [getD_zipWith_and _ _ _ hpm hpf, hf, Bool.and_false]
    · apply getD_of_le_length
      rw [List.length_zipWith]
      omega
  · apply getD_of_le_length
    rw [List.length_zipWith]
    omega

/-- C7.  With a fundamental condition enabled, a missing API key or an
absent/empty provider response makes the fundamental gate the all-false
series over the run's calendar, and the combined signal is then false on
every trading day; the embedding is total, mirroring that this path raises
nothing. -/
theorem C7_fails_closed (bars : List Bar) (spec : ConditionSpec)
    (fetch : Option (List RawFiling)) (fp : FundParams)
    (henabled : spec.fundamental = some fp)
    (hfail : fp.apiKey = false ∨ fetch = none ∨ fetch = some []) :
    fundamentalColumn (bars.map Bar.date) spec fetch
        = some ((bars.map Bar.date).map (fun _ => false)) ∧
    ∀ p, (signalSeries bars spec fetch).getD p false = false := by
  have hcol : fundamentalColumn (bars.map Bar.date) spec fetch
      = some ((bars.map Bar.date).map (fun _ => false)) := by
    rcases hfail with hk | hf | he
    · simp [fundamentalColumn, henabled, hk]
    · cases hfp : fp.apiKey <;> simp [fundamentalColumn, henabled, hf, hfp]
    · cases hfp : fp.apiKey <;> simp [fundamentalColumn, henabled, he, hfp]
  refine ⟨hcol, fun p => ?_⟩
  unfold signalSeries check_conditions
  by_cases hlen : bars.length < 120
  · rw [if_pos hlen]
    exact getD_replicate_false _ _
  · rw [if_neg hlen, hcol]
    have hfund : spec.fundamental.isSome = true := by rw [henabled]; rfl
    rw [if_pos hfund]
    simp only [andMask]
    exact getD_zipWith_and_false _ _ _ (getD_map_false _ _)

/-- Witness for C7 at a concrete run: fundamental enabled, API key absent. -/
theorem C7_fails_closed_witness :
    fundamentalColumn (([⟨1, 1, 1, 1⟩] : List Bar).map Bar.date)
        ⟨none, none, none, none, none,
          some ⟨false, some 0, none, none, none, none, none, none, none, none, none, none⟩⟩
        (some [⟨"매출액", "11011", 2020, 1⟩])
        = some [false] ∧
    (signalSeries [⟨1, 1, 1, 1⟩]
        ⟨none, none, none, none, none,
          some ⟨false, some 0, none, none, none, none, none, none, none, none, none, none⟩⟩
        (some [⟨"매출액", "11011", 2020, 1⟩])).getD 0 false = false :=
  ⟨(C7_fails_closed [⟨1, 1, 1, 1⟩] _ _ _ rfl (Or.inl rfl)).1,
    (C7_fails_closed [⟨1, 1, 1, 1⟩] _ _ _ rfl (Or.inl rfl)).2 0⟩

/-! ## The backtest characterisation -/

/-- The record the simulator emits for the in-window signal at position `p`:
entry at `p`'s close, exit at position `min (p+n) (length-1)`. -/
def tradeAt (df : List (Int × ℚ)) (n : Nat) (p : Nat) : Trade :=
  mkTradeRow (df.getD p (0, 0)).1 (df.getD p (0, 0)).2
    (df.getD (min (p + n) (df.length - 1)) (0, 0)).1
    (df.getD (min (p + n) (df.length - 1)) (0, 0)).2

lemma filterMap_filter {α β : Type} (l : List α) (p : α → Bool) (f : α → Option β) :
    (l.filter p).filterMap f = l.filterMap (fun a => if p a then f a else none) := by
  induction l with
  | nil => rfl
  | cons a as ih =>
      by_cases h : p a
      · simp only [List.filter_cons, h, if_true, List.filterMap_cons, ih]
      · simp only [List.filter_cons, h, Bool.false_eq_true, if_false, List.filterMap_cons, ih]

lemma getD_eq_getElem' {α : Type} (l : List α) (i : Nat) (d : α) (h : i < l.length) :
    l.getD i d = l[i] := by
  rw [List.getD_eq_getElem?_getD, List.getElem?_eq_getElem h]
  rfl

lemma zip_eq_range_map (df : List (Int × ℚ)) (sig : List Bool)
    (h : sig.length = df.length) :
    df.zip sig = (List.range df.length).map
      (fun p => ((df.getD p (0, 0)), sig.getD p false)) := by
  apply List.ext_getElem?
  intro i
  rw [List.getElem?_map]
  by_cases hi : i < df.length
  · have hi2 : i < sig.length := by omega
    rw [List.getElem?_range hi]
    show (List.zipWith Prod.mk df sig)[i]? = _
    rw [List.getElem?_zipWith, List.getElem?_eq_getElem hi, List.getElem?_eq_getElem hi2]
    show some (df[i], sig[i]) = some (df.getD i (0, 0), sig.getD i false)
    rw [getD_eq_getElem' _ _ _ hi, getD_eq_getElem' _ _ _ hi2]
  · have h1 : (df.zip sig)[i]? = none := by
      apply List.getElem?_eq_none
      rw [List.length_zip]
      omega
    have h2 : (List.range df.length)[i]? = none := by
      apply List.getElem?_eq_none
      rw [List.length_range]
      omega
    rw [h1, h2]
    rfl

lemma findIdx?_key (df : List (Int × ℚ))
    (hmono : (df.map Prod.fst).Pairwise (· < ·)) (p : Nat) (hp : p < df.length) :
    df.findIdx? (fun r => r.1 == (df.getD p (0, 0)).1) = some p := by
  rw [List.findIdx?_eq_some_iff_getElem]
  have hmono' : ∀ (i j : Nat) (hi : i < df.length) (hj : j < df.length), i < j →
      (df.get ⟨i, hi⟩).1 < (df.get ⟨j, hj⟩).1 := by
    intro i j hi hj hij
    have := List.pairwise_iff_getElem.mp hmono i j (by simpa using hi)
      (by simpa using hj) hij
    simpa using this
  refine ⟨hp, ?_, ?_⟩
  · rw [getD_eq_getElem' _ _ _ hp]
    exact beq_self_eq_true _
  · intro j hj
    have hjlen : j < df.length := by omega
    have hlt : (df.get ⟨j, hjlen⟩).1 < (df.get ⟨p, hp⟩).1 := hmono' j p hjlen hp hj
    rw [getD_eq_getElem' _ _ _ hp]
    simp only [Bool.not_eq_true, beq_eq_false_iff_ne, ne_eq]
    intro h
    rw [List.get_eq_getElem, List.get_eq_getElem] at hlt
    exact absurd h (ne_of_lt hlt)

/-- The trade loop, re-expressed positionally: the simulator emits exactly
one trade for every in-window signal position whose clamped exit position is
strictly later, in position order. -/
lemma backtest_trades_eq (df : List (Int × ℚ)) (sig : List Bool) (sd ed : Int)
    (n : Nat) (hlen : sig.length = df.length)
    (hmono : (df.map Prod.fst).Pairwise (· < ·)) :
    backtest_trades df sig sd ed n
      = (List.range df.length).filterMap (fun p =>
          if sig.getD p false && decide (sd ≤ (df.getD p (0, 0)).1)
              && decide ((df.getD p (0, 0)).1 ≤ ed)
              && decide (p < min (p + n) (df.length - 1)) then
            some (tradeAt df n p)
          else none) := by
  unfold backtest_trades
  rw [filterMap_filter, zip_eq_range_map df sig hlen, List.filterMap_map]
  apply List.filterMap_congr
  intro p hp
  rw [List.mem_range] at hp
  show (if sig.getD p false && decide (sd ≤ (df.getD p (0, 0)).1)
        && decide ((df.getD p (0, 0)).1 ≤ ed) then
      (match df.findIdx? (fun r => r.1 == (df.getD p (0, 0)).1) with
        | none => none
        | some ci =>
          if ci < (if df.length ≤ ci + n then df.length - 1 else ci + n) then
            some (mkTradeRow (df.getD p (0, 0)).1 (df.getD p (0, 0)).2
              (df.getD (if df.length ≤ ci + n then df.length - 1 else ci + n) (0, 0)).1
              (df.getD (if df.length ≤ ci + n then df.length - 1 else ci + n) (0, 0)).2)
          else none)
    else none) = _
  rw [findIdx?_key df hmono p hp]
  have hfi : (if df.length ≤ p + n then df.length - 1 else p + n)
      = min (p + n) (df.length - 1) := by
    rcases le_or_lt df.length (p + n) with h | h
    · rw [if_pos h]
      omega
    · rw [if_neg (by omega)]
      omega
  by_cases h1 : (sig.getD p false && decide (sd ≤ (df.getD p (0, 0)).1)
      && decide ((df.getD p (0, 0)).1 ≤ ed)) = true
  · rw [if_pos h1, h1, Bool.true_and]
    show (if p < (if df.length ≤ p + n then df.length - 1 else p + n) then _ else _) = _
    rw [hfi]
    by_cases h2 : p < min (p + n) (df.length - 1)
    · rw [if_pos h2, if_pos (by simpa using h2)]
      rfl
    · rw [if_neg h2, if_neg (by simpa using h2)]
  · rw [if_neg h1]
    rw [Bool.not_eq_true] at h1
    rw [h1, Bool.false_and, if_neg (by simp)]

/-- Every emitted trade stores the rounded return of its own entry and exit
prices, and its direction is the sign of the unrounded return. -/
lemma backtest_trades_shape (df : List (Int × ℚ)) (sig : List Bool) (sd ed : Int)
    (n : Nat) (t : Trade) (ht : t ∈ backtest_trades df sig sd ed n) :
    t.returnPct = round2 ((t.exitPrice - t.entryPrice) / t.entryPrice * 100) ∧
    t.up = decide (0 < (t.exitPrice - t.entryPrice) / t.entryPrice * 100) := by
  unfold backtest_trades at ht
  rcases List.mem_filterMap.mp ht with ⟨rb, hrb, hg⟩
  rcases hfi : df.findIdx? (fun r => r.1 == rb.1.1) with - | ci
  · rw [hfi] at hg
    exact absurd hg (by simp)
  · rw [hfi] at hg
    have hg' : (if ci < (if df.length ≤ ci + n then df.length - 1 else ci + n) then
        some (mkTradeRow rb.1.1 rb.1.2
          (df.getD (if df.length ≤ ci + n then df.length - 1 else ci + n) (0, 0)).1
          (df.getD (if df.length ≤ ci + n then df.length - 1 else ci + n) (0, 0)).2)
      else none) = some t := hg
    by_cases hlt : ci < (if df.length ≤ ci + n then df.length - 1 else ci + n)
    · rw [if_pos hlt] at hg'
      have := Option.some.inj hg'
      subst this
      exact ⟨rfl, rfl⟩
    · rw [if_neg hlt] at hg'
      exact absurd hg' (by simp)

lemma win_trades_filter_ne (L : List Trade) :
    win_trades L = win_trades (L.filter (fun s => decide (s.returnPct ≠ 0))) := by
  unfold win_trades
  rw [List.filter_filter]
  congr 1
  apply List.filter_congr
  intro t ht
  by_cases h : 0 < t.returnPct
  · simp [h, ne_of_gt h]
  · simp [h]

/-! ## C6: the trade-emission rule -/

/-- Counterexample to C6 as stated: at entry 11 and exit 12 the emitted
record's return field is `round((12-11)/11*100, 2) = 9.09`, not the exact
`(12-11)/11*100 = 100/11`. -/
theorem C6_counterexample :
    backtest_trades [(1, 11), (2, 12)] [true, false] 0 10 1
        = [⟨1, 11, 2, 12, 909 / 100, true⟩] ∧
    ((12 : ℚ) - 11) / 11 * 100 ≠ 909 / 100 := by
  constructor
  · show [mkTradeRow 1 11 2 12] = _
    have h1 : ((12 : ℚ) - 11) / 11 * 100 = 100 / 11 := by norm_num
    have h2 : round2 (100 / 11) = 909 / 100 := by norm_num [round2, roundHalfEven]
    have h3 : decide ((0 : ℚ) < 100 / 11) = true := by norm_num
    unfold mkTradeRow
    rw [h1]
    simp only [h2, h3]
  · intro h
    norm_num at h

/-- C6 amended.  Over a price series with strictly increasing dates, the
simulator emits exactly one trade per in-window signal position `p` whose
clamped exit position `min (p+n) (length-1)` is strictly after `p` — entry
price is that bar's close, the exit sits at the clamped position, and the
stored return is the rounded `(exit-entry)/entry*100`; trades are ordered by
ascending signal date; a signal on the last bar emits nothing. -/
theorem C6_backtest (df : List (Int × ℚ)) (sig : List Bool) (sd ed : Int)
    (n : Nat) (hlen : sig.length = df.length)
    (hmono : (df.map Prod.fst).Pairwise (· < ·)) :
    (backtest_trades df sig sd ed n
      = (List.range df.length).filterMap (fun p =>
          if sig.getD p false && decide (sd ≤ (df.getD p (0, 0)).1)
              && decide ((df.getD p (0, 0)).1 ≤ ed)
              && decide (p < min (p + n) (df.length - 1)) then
            some (tradeAt df n p)
          else none)) ∧
    ((backtest_trades df sig sd ed n).map Trade.entryDate).Pairwise (· ≤ ·) ∧
    (∀ t ∈ backtest_trades df sig sd ed n,
      t.entryDate ≠ (df.getD (df.length - 1) (0, 0)).1) := by
  have heq := backtest_trades_eq df sig sd ed n hlen hmono
  have hmemP : ∀ t ∈ backtest_trades df sig sd ed n,
      ∃ p, p < df.length ∧ p < df.length - 1 ∧ t = tradeAt df n p := by
    intro t ht
    rw [heq] at ht
    rcases List.mem_filterMap.mp ht with ⟨p, hpmem, hpt⟩
    rw [List.mem_range] at hpmem
    by_cases hcond : (sig.getD p false && decide (sd ≤ (df.getD p (0, 0)).1)
        && decide ((df.getD p (0, 0)).1 ≤ ed)
        && decide (p < min (p + n) (df.length - 1))) = true
    · rw [if_pos hcond] at hpt
      have hc4 : p < min (p + n) (df.length - 1) := by
        have := (Bool.and_eq_true_iff.mp hcond).2
        simpa using this
      exact ⟨p, hpmem, by omega, (Option.some.inj hpt).symm⟩
    · rw [if_neg hcond] at hpt
      exact absurd hpt (by simp)
  have hmono' : ∀ (i j : Nat), i < df.length → j < df.length → i < j →
      (df.getD i (0, 0)).1 < (df.getD j (0, 0)).1 := by
    intro i j hi hj hij
    have := List.pairwise_iff_getElem.mp hmono i j (by simpa using hi)
      (by simpa using hj) hij
    rw [getD_eq_getElem' _ _ _ hi, getD_eq_getElem' _ _ _ hj]
    simpa using this
  refine ⟨heq, ?_, ?_⟩
  · rw [heq]
    have hform : (List.range df.length).filterMap (fun p =>
        if sig.getD p false && decide (sd ≤ (df.getD p (0, 0)).1)
            && decide ((df.getD p (0, 0)).1 ≤ ed)
            && decide (p < min (p + n) (df.length - 1)) then
          some (tradeAt df n p)
        else none)
        = ((List.range df.length).filter (fun p =>
            sig.getD p false && decide (sd ≤ (df.getD p (0, 0)).1)
              && decide ((df.getD p (0, 0)).1 ≤ ed)
              && decide (p < min (p + n) (df.length - 1)))).map (tradeAt df n) := by
      generalize List.range df.length = L
      induction L with
      | nil => rfl
      | cons a as ih =>
          by_cases h : (sig.getD a false && decide (sd ≤ (df.getD a (0, 0)).1)
              && decide ((df.getD a (0, 0)).1 ≤ ed)
              && decide (a < min (a + n) (df.length - 1))) = true
          · simp only [List.filterMap_cons, List.filter_cons, h, if_true, List.map_cons, ih]
          · simp only [List.filterMap_cons, List.filter_cons, h, Bool.false_eq_true, if_false,
              ih]
    rw [hform, List.map_map]
    have hpw : ((List.range df.length).filter (fun p =>
        sig.getD p false && decide (sd ≤ (df.getD p (0, 0)).1)
          && decide ((df.getD p (0, 0)).1 ≤ ed)
          && decide (p < min (p + n) (df.length - 1)))).Pairwise (· < ·) :=
      (List.pairwise_lt_range df.length).sublist (List.filter_sublist _)
    rw [List.pairwise_map]
    apply List.Pairwise.imp_of_mem ?_ hpw
    intro a b ha hb hab
    have haL : a < df.length := by
      have := List.mem_filter.mp ha
      exact List.mem_range.mp this.1
    have hbL : b < df.length := by
      have := List.mem_filter.mp hb
      exact List.mem_range.mp this.1
    show (tradeAt df n a).entryDate ≤ (tradeAt df n b).entryDate
    exact le_of_lt (hmono' a b haL hbL hab)
  · intro t ht
    rcases hmemP t ht with ⟨p, hp, hplast, rfl⟩
    show (df.getD p (0, 0)).1 ≠ (df.getD (df.length - 1) (0, 0)).1
    exact ne_of_lt (hmono' p (df.length - 1) hp (by omega) hplast)

/-- Witness for C6 at a concrete series: three bars, signal two bars from
the end, horizon 5 — the characterisation applies and the emitted trade
exits at the clamped last bar. -/
theorem C6_backtest_witness :
    ([true, true, false] : List Bool).length = ([(1, 10), (2, 11), (3, 12)] : List (Int × ℚ)).length ∧
    (backtest_trades [(1, 10), (2, 11), (3, 12)] [true, true, false] 2 10 5
      = (List.range 3).filterMap (fun p =>
          if ([true, true, false] : List Bool).getD p false
              && decide ((2 : Int) ≤ (([(1, 10), (2, 11), (3, 12)] : List (Int × ℚ)).getD p (0, 0)).1)
              && decide ((([(1, 10), (2, 11), (3, 12)] : List (Int × ℚ)).getD p (0, 0)).1 ≤ (10 : Int))
              && decide (p < min (p + 5) 2) then
            some (tradeAt [(1, 10), (2, 11), (3, 12)] 5 p)
          else none)) :=
  ⟨rfl, (C6_backtest [(1, 10), (2, 11), (3, 12)] [true, true, false] 2 10 5 rfl
    (by decide)).1⟩

/-! ## C10: zero-return trades are losses -/

/-- C10.  A trade whose exit price equals its entry price is recorded with
return `0` and outcome `'하락'` (down), and the win counters of both the
single-security summary and the scan loop ignore zero-return trades — only
strictly positive returns are counted. -/
theorem C10_zero_return_is_loss (df : List (Int × ℚ)) (sig : List Bool)
    (sd ed : Int) (n : Nat) (t : Trade)
    (ht : t ∈ backtest_trades df sig sd ed n)
    (hz : t.exitPrice = t.entryPrice) :
    t.returnPct = 0 ∧ t.up = false ∧
    win_trades (backtest_trades df sig sd ed n)
      = win_trades ((backtest_trades df sig sd ed n).filter
          (fun s => decide (s.returnPct ≠ 0))) ∧
    scan_win_cnt (backtest_trades df sig sd ed n)
      = scan_win_cnt ((backtest_trades df sig sd ed n).filter
          (fun s => decide (s.returnPct ≠ 0))) := by
  obtain ⟨hr, hu⟩ := backtest_trades_shape df sig sd ed n t ht
  have hpct : (t.exitPrice - t.entryPrice) / t.entryPrice * 100 = 0 := by
    rw [hz, sub_self, zero_div, zero_mul]
  have h0 : round2 0 = 0 := by norm_num [round2, roundHalfEven]
  refine ⟨by rw [hr, hpct, h0], by rw [hu, hpct]; simp, ?_, ?_⟩
  · exact win_trades_filter_ne _
  · show win_trades _ = win_trades _
    exact win_trades_filter_ne _

/-- Witness for C10: a flat two-bar series emits one zero-return trade. -/
theorem C10_zero_return_is_loss_witness :
    ((⟨1, 5, 2, 5, 0, false⟩ : Trade) ∈ backtest_trades [(1, 5), (2, 5)] [true, false] 0 10 1) ∧
    ((⟨1, 5, 2, 5, 0, false⟩ : Trade).exitPrice = (⟨1, 5, 2, 5, 0, false⟩ : Trade).entryPrice) ∧
    ((⟨1, 5, 2, 5, 0, false⟩ : Trade).returnPct = 0 ∧
      (⟨1, 5, 2, 5, 0, false⟩ : Trade).up = false ∧
      win_trades (backtest_trades [(1, 5), (2, 5)] [true, false] 0 10 1)
        = win_trades ((backtest_trades [(1, 5), (2, 5)] [true, false] 0 10 1).filter
            (fun s => decide (s.returnPct ≠ 0))) ∧
      scan_win_cnt (backtest_trades [(1, 5), (2, 5)] [true, false] 0 10 1)
        = scan_win_cnt ((backtest_trades [(1, 5), (2, 5)] [true, false] 0 10 1).filter
            (fun s => decide (s.returnPct ≠ 0)))) := by
  have hrow : mkTradeRow 1 5 2 5 = (⟨1, 5, 2, 5, 0, false⟩ : Trade) := by
    unfold mkTradeRow
    have h1 : ((5 : ℚ) - 5) / 5 * 100 = 0 := by norm_num
    have h2 : round2 0 = 0 := by norm_num [round2, roundHalfEven]
    have h3 : decide ((0 : ℚ) < 0) = false := by norm_num
    rw [h1]
    simp only [h2, h3]
  have hmem : (⟨1, 5, 2, 5, 0, false⟩ : Trade)
      ∈ backtest_trades [(1, 5), (2, 5)] [true, false] 0 10 1 := by
    show (⟨1, 5, 2, 5, 0, false⟩ : Trade) ∈ [mkTradeRow 1 5 2 5]
    rw [hrow]
    exact List.mem_singleton.mpr rfl
  exact ⟨hmem, rfl,
    C10_zero_return_is_loss [(1, 5), (2, 5)] [true, false] 0 10 1 _ hmem rfl⟩

/-! ## The interval-broadcast characterisation -/

lemma getD_zipWith_cover (idx : List Int) (mask : List Bool) (g : Int → Bool)
    (j : Nat) (hj : j < idx.length) (hm : mask.length = idx.length) :
    (List.zipWith (fun d b => b || g d) idx mask).getD j false
      = (mask.getD j false || g (idx.getD j 0)) := by
  rw [List.getD_eq_getElem?_getD, List.getElem?_zipWith,
    List.getElem?_eq_getElem hj, List.getElem?_eq_getElem (show j < mask.length by omega)]
  rw [getD_eq_getElem' _ _ _ (show j < mask.length by omega), getD_eq_getElem' _ _ _ hj]
  rfl

lemma foldl_step_length (idx dates : List Int) (ok : Nat → Bool) (L : List Nat)
    (mask : List Bool) (hm : mask.length = idx.length) :
    (L.foldl (fun m i => if ok i then
        List.zipWith (fun d b => b || coverB dates i d) idx m else m) mask).length
      = idx.length := by
  induction L generalizing mask with
  | nil => simpa using hm
  | cons a as ih =>
      rw [List.foldl_cons]
      apply ih
      by_cases h : ok a
      · rw [if_pos h, List.length_zipWith]
        omega
      · rw [if_neg h]
        exact hm

lemma foldl_step_getD (idx dates : List Int) (ok : Nat → Bool) (L : List Nat)
    (mask : List Bool) (hm : mask.length = idx.length) (j : Nat) (hj : j < idx.length) :
    (L.foldl (fun m i => if ok i then
        List.zipWith (fun d b => b || coverB dates i d) idx m else m) mask).getD j false
      = (mask.getD j false
          || L.any (fun i => ok i && coverB dates i (idx.getD j 0))) := by
  induction L generalizing mask with
  | nil => simp
  | cons a as ih =>
      rw [List.foldl_cons, List.any_cons]
      by_cases h : ok a
      · rw [if_pos h, ih _ (by rw [List.length_zipWith]; omega),
          getD_zipWith_cover idx mask _ j hj hm, h, Bool.true_and, Bool.or_assoc]
      · have hfa : ok a = false := by
          revert h
          cases ok a <;> simp
        rw [if_neg h, ih _ hm, hfa, Bool.false_and, Bool.false_or]

lemma broadcastMask_length (idx dates : List Int) (lo : Nat) (ok : Nat → Bool) :
    (broadcastMask idx dates lo ok).length = idx.length := by
  unfold broadcastMask
  exact foldl_step_length idx dates ok _ _ (by simp)

lemma broadcastMask_getD (idx dates : List Int) (lo : Nat) (ok : Nat → Bool)
    (j : Nat) (hj : j < idx.length) :
    (broadcastMask idx dates lo ok).getD j false
      = (List.range' lo (dates.length - lo)).any
          (fun i => ok i && coverB dates i (idx.getD j 0)) := by
  unfold broadcastMask
  rw [foldl_step_getD idx dates ok _ _ (by simp) j hj, getD_map_false, Bool.false_or]

lemma pairwise_getD_lt (dates : List Int) (hsort : dates.Pairwise (· < ·))
    (a b : Nat) (ha : a < dates.length) (hb : b < dates.length) (hab : a < b) :
    dates.getD a 0 < dates.getD b 0 := by
  have := List.pairwise_iff_getElem.mp hsort a b ha hb hab
  rw [getD_eq_getElem' _ _ _ ha, getD_eq_getElem' _ _ _ hb]
  exact this

lemma pairwise_getD_le (dates : List Int) (hsort : dates.Pairwise (· < ·))
    (a b : Nat) (ha : a < dates.length) (hb : b < dates.length) (hab : a ≤ b) :
    dates.getD a 0 ≤ dates.getD b 0 := by
  rcases Nat.lt_or_ge a b with h | h
  · exact le_of_lt (pairwise_getD_lt dates hsort a b ha hb h)
  · have : a = b := by omega
    subst this
    exact le_refl _

lemma coverB_true (dates : List Int) (i : Nat) (d : Int)
    (hstart : dates.getD i 0 ≤ d)
    (hbound : i + 1 < dates.length → d < dates.getD (i + 1) 0) :
    coverB dates i d = true := by
  unfold coverB
  by_cases h : i + 1 < dates.length
  · rw [if_pos h]
    have h1 : decide (dates.getD i 0 ≤ d) = true := by simpa using hstart
    have h2 : decide (d < dates.getD (i + 1) 0) = true := by simpa using hbound h
    rw [h1, h2]
    rfl
  · rw [if_neg h]
    simpa using hstart

lemma coverB_disjoint (dates : List Int) (hsort : dates.Pairwise (· < ·))
    (i i' : Nat) (hi : i < dates.length) (hi' : i' < dates.length) (hne : i' ≠ i)
    (d : Int) (hstart : dates.getD i 0 ≤ d)
    (hbound : i + 1 < dates.length → d < dates.getD (i + 1) 0) :
    coverB dates i' d = false := by
  unfold coverB
  rcases Nat.lt_or_ge i' i with hlt | hge
  · rw [if_pos (by omega)]
    have h2 : dates.getD (i' + 1) 0 ≤ d :=
      le_trans (pairwise_getD_le dates hsort (i' + 1) i (by omega) hi (by omega)) hstart
    have h3 : decide (d < dates.getD (i' + 1) 0) = false := by
      simpa using not_lt.mpr h2
    rw [h3, Bool.and_false]
  · have hgt : i < i' := by omega
    have h1 : ¬ dates.getD i' 0 ≤ d := by
      have hd : d < dates.getD (i + 1) 0 := hbound (by omega)
      have hle : dates.getD (i + 1) 0 ≤ dates.getD i' 0 :=
        pairwise_getD_le dates hsort (i + 1) i' (by omega) hi' (by omega)
      omega
    have h1' : decide (dates.getD i' 0 ≤ d) = false := by simpa using h1
    by_cases h : i' + 1 < dates.length
    · rw [if_pos h, h1', Bool.false_and]
    · rw [if_neg h]
      exact h1'

/-- At a calendar day lying in window `i`'s broadcast interval, the final
mask equals window `i`'s own condition (windows are disjoint when the filing
dates strictly increase). -/
lemma broadcast_window_eval (idx dates : List Int) (lo : Nat) (ok : Nat → Bool)
    (hsort : dates.Pairwise (· < ·)) (i j : Nat) (hlo : lo ≤ i)
    (hi : i < dates.length) (hj : j < idx.length)
    (hstart : dates.getD i 0 ≤ idx.getD j 0)
    (hbound : i + 1 < dates.length → idx.getD j 0 < dates.getD (i + 1) 0) :
    (broadcastMask idx dates lo ok).getD j false = ok i := by
  rw [broadcastMask_getD idx dates lo ok j hj]
  cases hoki : ok i
  · rw [List.any_eq_false]
    intro i' hi'
    rw [List.mem_range'_1] at hi'
    by_cases hne : i' = i
    · subst hne
      simp [hoki]
    · rw [coverB_disjoint dates hsort i i' hi (by omega) hne _ hstart hbound,
        Bool.and_false]
      simp
  · rw [List.any_eq_true]
    refine ⟨i, ?_, ?_⟩
    · rw [List.mem_range'_1]
      omega
    · rw [hoki, coverB_true dates i _ hstart hbound]
      rfl


/-! ## C5: the growth-streak evaluator -/

lemma growthTarget_of_empty (dfMain : List FRow) (item : String) (per : PeriodType)
    (hempty : dfMain.filter (fun r => r.account_nm == item) = []) :
    growthTarget dfMain item per = [] := by
  unfold growthTarget
  rw [hempty]
  cases per <;> rfl

lemma calculate_growth_mask_eval (dfMain : List FRow) (item : String)
    (per : PeriodType) (n : ℚ) (idx : List Int) :
    calculate_growth_mask dfMain item per n idx
      = if 4 ≤ (growthTarget dfMain item per).length then
          broadcastMask idx ((growthTarget dfMain item per).map FRow.release) 3
            (growthOk n ((growthTarget dfMain item per).map FRow.amount))
        else idx.map (fun _ => false) := by
  unfold calculate_growth_mask
  by_cases hempty : (dfMain.filter (fun r => r.account_nm == item)).isEmpty
  · rw [if_pos hempty]
    rw [List.isEmpty_iff] at hempty
    rw [growthTarget_of_empty dfMain item per hempty]
    rw [if_neg (by simp)]
  · rw [if_neg hempty]
    show (if ((growthTarget dfMain item per).map FRow.amount).length < 4 then
        idx.map (fun _ => false)
      else broadcastMask idx ((growthTarget dfMain item per).map FRow.release) 3
        (growthOk n ((growthTarget dfMain item per).map FRow.amount))) = _
    by_cases h4 : 4 ≤ (growthTarget dfMain item per).length
    · rw [if_neg (by rw [List.length_map]; omega), if_pos h4]
    · rw [if_pos (by rw [List.length_map]; omega), if_neg h4]

/-- C5.  With strictly increasing effective dates on the period-filtered
series: fewer than 4 observations make the growth mask all-false; otherwise,
at any calendar day falling in window `i`'s interval
`[release(v3), next release)` (unbounded for the last window), the mask
equals exactly the three-step growth test `g1,g2,g3 ≥ n` of that window. -/
theorem C5_growth_mask (dfMain : List FRow) (item : String) (per : PeriodType)
    (n : ℚ) (idx : List Int)
    (hsort : ((growthTarget dfMain item per).map FRow.release).Pairwise (· < ·)) :
    ((growthTarget dfMain item per).length < 4 →
      calculate_growth_mask dfMain item per n idx = idx.map (fun _ => false)) ∧
    (∀ (i j : Nat), 3 ≤ i → i < (growthTarget dfMain item per).length →
      j < idx.length →
      ((growthTarget dfMain item per).map FRow.release).getD i 0 ≤ idx.getD j 0 →
      (i + 1 < (growthTarget dfMain item per).length →
        idx.getD j 0 < ((growthTarget dfMain item per).map FRow.release).getD (i + 1) 0) →
      (calculate_growth_mask dfMain item per n idx).getD j false
        = growthOk n ((growthTarget dfMain item per).map FRow.amount) i) := by
  constructor
  · intro h4
    rw [calculate_growth_mask_eval, if_neg (by omega)]
  · intro i j h3 hi hj hstart hbound
    rw [calculate_growth_mask_eval, if_pos (by omega)]
    exact broadcast_window_eval idx _ 3 _ hsort i j h3 (by rw [List.length_map]; omega)
      hj hstart (by rw [List.length_map]; exact hbound)

/-- Witness for C5 at the spec's own example: quarterly values
`[100, 110, 121, 133.1]` with threshold 10 yield a mask that is true at a
calendar day on/after `v3`'s effective date. -/
theorem C5_growth_mask_witness :
    ((growthTarget
        [⟨"매출액", "11013", 2023, 100, 20230515⟩,
         ⟨"매출액", "11012", 2023, 110, 20230814⟩,
         ⟨"매출액", "11014", 2023, 121, 20231114⟩,
         ⟨"매출액", "11011", 2023, 1331 / 10, 20240331⟩]
        "매출액" PeriodType.quarter).map FRow.release).Pairwise (· < ·) ∧
    (calculate_growth_mask
        [⟨"매출액", "11013", 2023, 100, 20230515⟩,
         ⟨"매출액", "11012", 2023, 110, 20230814⟩,
         ⟨"매출액", "11014", 2023, 121, 20231114⟩,
         ⟨"매출액", "11011", 2023, 1331 / 10, 20240331⟩]
        "매출액" PeriodType.quarter 10
        [20230601, 20240330, 20240331, 20250101]).getD 2 false = true := by
  have hsort : ((growthTarget
      [⟨"매출액", "11013", 2023, 100, 20230515⟩,
       ⟨"매출액", "11012", 2023, 110, 20230814⟩,
       ⟨"매출액", "11014", 2023, 121, 20231114⟩,
       ⟨"매출액", "11011", 2023, 1331 / 10, 20240331⟩]
      "매출액" PeriodType.quarter).map FRow.release).Pairwise (· < ·) := by
    show ([20230515, 20230814, 20231114, 20240331] : List Int).Pairwise (· < ·)
    decide
  refine ⟨hsort, ?_⟩
  have h := (C5_growth_mask
      [⟨"매출액", "11013", 2023, 100, 20230515⟩,
       ⟨"매출액", "11012", 2023, 110, 20230814⟩,
       ⟨"매출액", "11014", 2023, 121, 20231114⟩,
       ⟨"매출액", "11011", 2023, 1331 / 10, 20240331⟩]
      "매출액" PeriodType.quarter 10
      [20230601, 20240330, 20240331, 20250101] hsort).2 3 2
      (by omega) (by show 3 < 4; omega) (by show 2 < 4; omega)
      (by show (20240331 : Int) ≤ 20240331; omega)
      (by intro hlt; exact absurd hlt (by show ¬ 3 + 1 < 4; omega))
  rw [h]
  have hvals : ((growthTarget
      [⟨"매출액", "11013", 2023, 100, 20230515⟩,
       ⟨"매출액", "11012", 2023, 110, 20230814⟩,
       ⟨"매출액", "11014", 2023, 121, 20231114⟩,
       ⟨"매출액", "11011", 2023, 1331 / 10, 20240331⟩]
      "매출액" PeriodType.quarter).map FRow.amount) = [100, 110, 121, 1331 / 10] := by
    rfl
  rw [hvals]
  unfold growthOk
  norm_num [growthPct]

/-! ## C8: the per-security failure boundary -/

/-- A two-security universe whose first price fetch raises. -/
def cexFetchP (s : Security) : Except String (List Bar) :=
  if s.code == "0001" then Except.error "network"
  else Except.ok ((List.range 120).map (fun i => ⟨(i : Int) + 1, 1, 1, 1⟩))

/-- The technical-only condition with no rules enabled. -/
def emptySpec : ConditionSpec := ⟨none, none, none, none, none, none⟩

set_option maxRecDepth 40000 in
/-- Counterexample to C8 as stated: the scan loop has no `try` around the
price fetch (app.py:1030-1052, 486-490), so a raising fetch for the first
security aborts the whole scan instead of skipping it — the second security,
which alone yields a summary, is lost. -/
theorem C8_counterexample :
    scanStocks [⟨"0001", "A"⟩, ⟨"0002", "B"⟩] cexFetchP (fun _ => Except.error "no filings")
        emptySpec 1 1 1 = Except.error "network" ∧
    (∃ l, scanStocks [⟨"0002", "B"⟩] cexFetchP (fun _ => Except.error "no filings")
        emptySpec 1 1 1 = Except.ok l ∧ l ≠ []) :=
  ⟨rfl,
    ⟨[mkSummary ⟨"0002", "B"⟩ [mkTradeRow 1 1 2 1]], rfl, by simp⟩⟩

/-- C8 amended.  A provider fetch that returns an empty price frame makes
that security contribute nothing and the scan continue; a filing fetch that
raises is absorbed inside `get_fundamental_data` and equals an empty filing
response; but a raising price fetch is not caught — it propagates and aborts
the scan (and a single-security run propagates it rather than reporting no
result). -/
theorem C8_scan_failures (s : Security) (rest : List Security)
    (fetchP : Security → Except String (List Bar))
    (fetchF : Security → Except String (List RawFiling))
    (spec : ConditionSpec) (sd ed : Int) (n : Nat) :
    (fetchP s = Except.ok [] →
      scanStocks (s :: rest) fetchP fetchF spec sd ed n
        = scanStocks rest fetchP fetchF spec sd ed n) ∧
    (∀ e, fetchP s = Except.error e →
      scanStocks (s :: rest) fetchP fetchF spec sd ed n = Except.error e) ∧
    (∀ (df : List Bar) e, backtest_single_stock df (Except.error e) spec sd ed n
        = backtest_single_stock df (Except.ok []) spec sd ed n) := by
  refine ⟨?_, ?_, fun df e => rfl⟩
  · intro h
    conv_lhs => rw [scanStocks, h]
    rcases hr : scanStocks rest fetchP fetchF spec sd ed n with e | tail <;> rfl
  · intro e h
    conv_lhs => rw [scanStocks, h]

/-- Witness for C8: an empty fetch result is skipped and the scan keeps
going. -/
theorem C8_scan_failures_witness :
    ((fun _ : Security => (Except.ok [] : Except String (List Bar))) ⟨"0001", "A"⟩
        = Except.ok []) ∧
    scanStocks [⟨"0001", "A"⟩, ⟨"0002", "B"⟩] (fun _ => Except.ok [])
        (fun _ => Except.error "x") emptySpec 0 10 1
      = scanStocks [⟨"0002", "B"⟩] (fun _ => Except.ok [])
        (fun _ => Except.error "x") emptySpec 0 10 1 :=
  ⟨rfl, (C8_scan_failures ⟨"0001", "A"⟩ [⟨"0002", "B"⟩] (fun _ => Except.ok [])
    (fun _ => Except.error "x") emptySpec 0 10 1).1 rfl⟩

/-! ## Stable-sort infrastructure for the point-in-time analysis -/

lemma insertK_nil {α : Type} (k : α → Int) (a : α) : insertK k a [] = [a] := rfl

lemma insertK_cons_le {α : Type} (k : α → Int) (a b : α) (l : List α)
    (h : k a ≤ k b) : insertK k a (b :: l) = a :: b :: l := by
  simp only [insertK, if_pos h]

lemma insertK_cons_gt {α : Type} (k : α → Int) (a b : α) (l : List α)
    (h : ¬ k a ≤ k b) : insertK k a (b :: l) = b :: insertK k a l := by
  simp only [insertK, if_neg h]

lemma mem_insertK {α : Type} (k : α → Int) (a x : α) (l : List α) :
    x ∈ insertK k a l ↔ x = a ∨ x ∈ l := by
  induction l with
  | nil => simp [insertK_nil]
  | cons b bs ih =>
      by_cases h : k a ≤ k b
      · rw [insertK_cons_le k a b bs h]
        simp [List.mem_cons]
      · rw [insertK_cons_gt k a b bs h]
        simp only [List.mem_cons, ih]
        tauto

lemma mem_sortK {α : Type} (k : α → Int) (x : α) (l : List α) :
    x ∈ sortK k l ↔ x ∈ l := by
  induction l with
  | nil => simp [sortK]
  | cons a as ih =>
      show x ∈ insertK k a (sortK k as) ↔ _
      rw [mem_insertK, ih]
      simp [List.mem_cons]

lemma insertK_sorted {α : Type} (k : α → Int) (a : α) (l : List α)
    (hs : l.Pairwise (fun x y => k x ≤ k y)) :
    (insertK k a l).Pairwise (fun x y => k x ≤ k y) := by
  induction l with
  | nil => simp [insertK_nil]
  | cons b bs ih =>
      rw [List.pairwise_cons] at hs
      by_cases h : k a ≤ k b
      · rw [insertK_cons_le k a b bs h, List.pairwise_cons]
        refine ⟨?_, List.pairwise_cons.mpr hs⟩
        intro x hx
        rcases List.mem_cons.mp hx with rfl | hx
        · exact h
        · exact le_trans h (hs.1 x hx)
      · rw [insertK_cons_gt k a b bs h, List.pairwise_cons]
        refine ⟨?_, ih hs.2⟩
        intro x hx
        rcases (mem_insertK k a x bs).mp hx with rfl | hx
        · omega
        · exact hs.1 x hx

lemma sortK_sorted {α : Type} (k : α → Int) (l : List α) :
    (sortK k l).Pairwise (fun x y => k x ≤ k y) := by
  induction l with
  | nil => simp [sortK]
  | cons a as ih => exact insertK_sorted k a _ ih

lemma sortK_of_sorted {α : Type} (k : α → Int) (l : List α)
    (hs : l.Pairwise (fun x y => k x ≤ k y)) : sortK k l = l := by
  induction l with
  | nil => rfl
  | cons a as ih =>
      rw [List.pairwise_cons] at hs
      show insertK k a (sortK k as) = a :: as
      rw [ih hs.2]
      cases as with
      | nil => rfl
      | cons b bs => rw [insertK_cons_le k a b bs (hs.1 b (List.mem_cons_self b bs))]

lemma filter_insertK {α : Type} (k : α → Int) (q : α → Bool) (a : α) (l : List α)
    (hs : l.Pairwise (fun x y => k x ≤ k y)) :
    (insertK k a l).filter q
      = if q a then insertK k a (l.filter q) else l.filter q := by
  induction l with
  | nil =>
      cases hqa : q a <;>
        simp only [insertK_nil, List.filter_cons, hqa, Bool.false_eq_true, if_false,
          if_true, List.filter_nil]
  | cons b bs ih =>
      rw [List.pairwise_cons] at hs
      by_cases h : k a ≤ k b
      · rw [insertK_cons_le k a b bs h]
        cases hqa : q a
        · simp only [List.filter_cons, hqa, Bool.false_eq_true, if_false]
        · simp only [List.filter_cons, hqa, if_true]
          cases hqb : q b
          · simp only [Bool.false_eq_true, if_false]
            have hhead : ∀ x ∈ bs.filter q, k a ≤ k x := by
              intro x hx
              exact le_trans h (hs.1 x (List.mem_filter.mp hx).1)
            cases hfb : bs.filter q with
            | nil => rfl
            | cons c cs =>
                rw [insertK_cons_le k a c cs (by
                  apply hhead
                  rw [hfb]
                  exact List.mem_cons_self c cs)]
          · simp only [if_true]
            rw [insertK_cons_le k a b _ h]
      · rw [insertK_cons_gt k a b bs h]
        cases hqa : q a
        · simp only [List.filter_cons, ih hs.2, hqa, Bool.false_eq_true, if_false]
        · simp only [List.filter_cons, ih hs.2, hqa, if_true]
          cases hqb : q b
          · simp only [Bool.false_eq_true, if_false]
          · simp only [if_true]
            rw [insertK_cons_gt k a b _ h]

lemma filter_sortK {α : Type} (k : α → Int) (q : α → Bool) (l : List α) :
    (sortK k l).filter q = sortK k (l.filter q) := by
  induction l with
  | nil => rfl
  | cons a as ih =>
      show (insertK k a (sortK k as)).filter q = sortK k ((a :: as).filter q)
      rw [filter_insertK k q a _ (sortK_sorted k as), ih, List.filter_cons]
      cases hqa : q a
      · simp only [Bool.false_eq_true, if_false]
      · simp only [if_true]
        rfl

lemma sorted_split_le {α : Type} (k : α → Int) (d : Int) (l : List α)
    (hs : l.Pairwise (fun x y => k x ≤ k y)) :
    l = l.filter (fun a => decide (k a ≤ d)) ++ l.filter (fun a => decide (¬ k a ≤ d)) := by
  induction l with
  | nil => rfl
  | cons a as ih =>
      rw [List.pairwise_cons] at hs
      rw [List.filter_cons, List.filter_cons]
      by_cases h : k a ≤ d
      · rw [if_pos (by simpa using h), if_neg (by simpa using h)]
        rw [List.cons_append]
        exact congrArg (a :: ·) (ih hs.2)
      · rw [if_neg (by simpa using h), if_pos (by simpa using h)]
        have hall : as.filter (fun x => decide (k x ≤ d)) = [] := by
          rw [List.filter_eq_nil_iff]
          intro x hx
          have := hs.1 x hx
          simp only [decide_eq_true_eq]
          omega
        have hih := ih hs.2
        rw [hall] at hih
        rw [List.nil_append] at hih
        rw [hall, List.nil_append]
        exact congrArg (a :: ·) hih

lemma insertK_append_lt {α : Type} (k : α → Int) (a : α) (l1 l2 : List α)
    (h2 : ∀ b ∈ l2, k a < k b) :
    insertK k a (l1 ++ l2) = insertK k a l1 ++ l2 := by
  induction l1 with
  | nil =>
      cases l2 with
      | nil => rfl
      | cons b bs =>
          show insertK k a (b :: bs) = [a] ++ b :: bs
          rw [insertK_cons_le k a b bs (le_of_lt (h2 b (List.mem_cons_self b bs)))]
          rfl
  | cons x xs ih =>
      show insertK k a (x :: (xs ++ l2)) = insertK k a (x :: xs) ++ l2
      by_cases h : k a ≤ k x
      · rw [insertK_cons_le k a x _ h, insertK_cons_le k a x _ h]
        rfl
      · rw [insertK_cons_gt k a x _ h, insertK_cons_gt k a x _ h]
        rw [List.cons_append, ih]

lemma sortK_append_lt {α : Type} (k : α → Int) (l1 l2 : List α)
    (h : ∀ a ∈ l1, ∀ b ∈ l2, k a < k b) :
    sortK k (l1 ++ l2) = sortK k l1 ++ sortK k l2 := by
  induction l1 with
  | nil => rfl
  | cons a as ih =>
      show insertK k a (sortK k (as ++ l2)) = insertK k a (sortK k as) ++ sortK k l2
      rw [ih (fun x hx => h x (List.mem_cons_of_mem a hx))]
      rw [insertK_append_lt]
      intro b hb
      exact h a (List.mem_cons_self a as) b ((mem_sortK k b l2).mp hb)

lemma dedupYearKeepLast_cons (a : FRow) (as : List FRow) :
    dedupYearKeepLast (a :: as)
      = if as.any (fun b => b.year == a.year) then dedupYearKeepLast as
        else a :: dedupYearKeepLast as := rfl

lemma mem_dedupYearKeepLast (x : FRow) (l : List FRow) :
    x ∈ dedupYearKeepLast l → x ∈ l := by
  induction l with
  | nil => simp [dedupYearKeepLast]
  | cons a as ih =>
      rw [dedupYearKeepLast_cons]
      by_cases h : as.any (fun b => b.year == a.year)
      · rw [if_pos h]
        intro hx
        exact List.mem_cons_of_mem a (ih hx)
      · rw [if_neg h]
        intro hx
        rcases List.mem_cons.mp hx with rfl | hx
        · exact List.mem_cons_self _ _
        · exact List.mem_cons_of_mem a (ih hx)

lemma dedupYearKeepLast_append (l1 l2 : List FRow)
    (h : ∀ a ∈ l1, ∀ b ∈ l2, a.year ≠ b.year) :
    dedupYearKeepLast (l1 ++ l2) = dedupYearKeepLast l1 ++ dedupYearKeepLast l2 := by
  induction l1 with
  | nil => rfl
  | cons a as ih =>
      rw [List.cons_append, dedupYearKeepLast_cons, dedupYearKeepLast_cons]
      have hsplit : ((as ++ l2).any (fun b => b.year == a.year))
          = (as.any (fun b => b.year == a.year)) := by
        rw [List.any_append]
        have hl2 : l2.any (fun b => b.year == a.year) = false := by
          rw [List.any_eq_false]
          intro b hb
          simp only [beq_iff_eq]
          exact fun hb2 => (h a (List.mem_cons_self a as) b hb) hb2.symm
        rw [hl2, Bool.or_false]
      rw [hsplit]
      by_cases hy : as.any (fun b => b.year == a.year)
      · rw [if_pos hy, if_pos hy]
        exact ih (fun x hx => h x (List.mem_cons_of_mem a hx))
      · rw [if_neg hy, if_neg hy]
        rw [List.cons_append]
        rw [ih (fun x hx => h x (List.mem_cons_of_mem a hx))]

lemma dedupAdj_cons2 (a b : Int) (rest : List Int) :
    dedupAdj (a :: b :: rest)
      = if a == b then dedupAdj (b :: rest) else a :: dedupAdj (b :: rest) := rfl

lemma mem_dedupAdj (x : Int) (l : List Int) : x ∈ dedupAdj l → x ∈ l := by
  induction l with
  | nil => simp [dedupAdj]
  | cons a as ih =>
      cases as with
      | nil => simp [dedupAdj]
      | cons b bs =>
          rw [dedupAdj_cons2]
          by_cases h : a == b
          · rw [if_pos h]
            intro hx
            exact List.mem_cons_of_mem a (ih hx)
          · rw [if_neg h]
            intro hx
            rcases List.mem_cons.mp hx with rfl | hx
            · exact List.mem_cons_self _ _
            · exact List.mem_cons_of_mem a (ih hx)

lemma dedupAdj_append (d : Int) (l1 l2 : List Int)
    (h1 : ∀ x ∈ l1, x ≤ d) (h2 : ∀ y ∈ l2, d < y) :
    dedupAdj (l1 ++ l2) = dedupAdj l1 ++ dedupAdj l2 := by
  induction l1 with
  | nil => rfl
  | cons a as ih =>
      cases as with
      | nil =>
          show dedupAdj (a :: l2) = dedupAdj [a] ++ dedupAdj l2
          cases l2 with
          | nil => rfl
          | cons b bs =>
              rw [dedupAdj_cons2]
              have hab : ¬ ((a == b) = true) := by
                simp only [beq_iff_eq]
                have := h1 a (List.mem_cons_self a [])
                have := h2 b (List.mem_cons_self b bs)
                omega
              rw [if_neg hab]
              rfl
      | cons a2 as2 =>
          show dedupAdj (a :: a2 :: (as2 ++ l2)) = dedupAdj (a :: a2 :: as2) ++ _
          have ihx := ih (fun x hx => h1 x (List.mem_cons_of_mem a hx))
          rw [List.cons_append] at ihx
          rw [dedupAdj_cons2, dedupAdj_cons2]
          by_cases h : a == a2
          · rw [if_pos h, if_pos h]
            exact ihx
          · rw [if_neg h, if_neg h]
            rw [List.cons_append]
            exact congrArg (a :: ·) ihx

/-! ## Point-in-time split of the filing pipeline -/

/-- The filing rows visible on calendar day `d`: released on or before `d`. -/
def pastR (d : Int) (F : List FRow) : List FRow :=
  F.filter (fun r => decide (r.release ≤ d))

/-- Invariant of the normalized frame: every row's release date is the one
`get_release_date` assigns to its `(year, reprt_code)`. -/
def relInv (F : List FRow) : Prop :=
  ∀ r ∈ F, r.release = get_release_date r.year r.reprt_code

lemma filter_comm' {α : Type} (p q : α → Bool) (l : List α) :
    (l.filter p).filter q = (l.filter q).filter p := by
  rw [List.filter_filter, List.filter_filter]
  apply List.filter_congr
  intro a ha
  exact Bool.and_comm _ _

lemma flatMap_congr {α β : Type} (l : List α) (f g : α → List β)
    (h : ∀ a ∈ l, f a = g a) : l.flatMap f = l.flatMap g := by
  induction l with
  | nil => rfl
  | cons a as ih =>
      rw [List.flatMap_cons, List.flatMap_cons, h a (List.mem_cons_self a as),
        ih (fun x hx => h x (List.mem_cons_of_mem a hx))]

lemma filter_flatMap {α β : Type} (l : List α) (f : α → List β) (p : β → Bool) :
    (l.flatMap f).filter p = l.flatMap (fun a => (f a).filter p) := by
  induction l with
  | nil => rfl
  | cons a as ih => rw [List.flatMap_cons, List.flatMap_cons, List.filter_append, ih]

lemma flatMap_if_filter {α β : Type} (l : List α) (q : α → Bool) (g : α → List β) :
    l.flatMap (fun a => if q a then g a else []) = (l.filter q).flatMap g := by
  induction l with
  | nil => rfl
  | cons a as ih =>
      rw [List.flatMap_cons, List.filter_cons]
      cases hqa : q a
      · simp only [Bool.false_eq_true, if_false, List.nil_append, ih]
      · simp only [if_true, List.flatMap_cons, ih]

lemma filter_const_of {α : Type} (l : List α) (p : α → Bool) (b : Bool)
    (h : ∀ a ∈ l, p a = b) : l.filter p = if b then l else [] := by
  induction l with
  | nil => cases b <;> rfl
  | cons a as ih =>
      rw [List.filter_cons, h a (List.mem_cons_self a as),
        ih (fun x hx => h x (List.mem_cons_of_mem a hx))]
      cases b <;> simp

lemma map_release_past (F : List FRow) (d : Int) :
    (pastR d F).map FRow.release = (F.map FRow.release).filter (fun x => decide (x ≤ d)) := by
  rw [List.filter_map]
  rfl

lemma growthTarget_quarter (F : List FRow) (item : String) :
    growthTarget F item PeriodType.quarter
      = sortK FRow.release (F.filter (fun r => r.account_nm == item)) := by
  show sortK FRow.release (sortK FRow.release (F.filter _)) = _
  exact sortK_of_sorted _ _ (sortK_sorted _ _)

lemma release_annual (y : Int) : get_release_date y "11011" = (y + 1) * 10000 + 331 := rfl

/-- The period-filtered series splits at day `d`: the visible part equals
the period filtering of the visible frame, and everything after it is
released strictly after `d`. -/
lemma growthTarget_split (F : List FRow) (item : String) (per : PeriodType)
    (d : Int) (hinv : relInv F) :
    ∃ Q, growthTarget F item per = growthTarget (pastR d F) item per ++ Q ∧
      ∀ r ∈ Q, ¬ r.release ≤ d := by
  cases per
  case quarter =>
    refine ⟨(sortK FRow.release (F.filter (fun r => r.account_nm == item))).filter
      (fun r => decide (¬ r.release ≤ d)), ?_, ?_⟩
    · rw [growthTarget_quarter, growthTarget_quarter]
      have e1 : sortK FRow.release ((pastR d F).filter (fun r => r.account_nm == item))
          = (sortK FRow.release (F.filter (fun r => r.account_nm == item))).filter
              (fun r => decide (r.release ≤ d)) := by
        rw [show (pastR d F).filter (fun r => r.account_nm == item)
            = (F.filter (fun r => r.account_nm == item)).filter
                (fun r => decide (r.release ≤ d)) from filter_comm' _ _ F]
        exact (filter_sortK _ _ _).symm
      rw [e1]
      exact sorted_split_le FRow.release d _ (sortK_sorted _ _)
    · intro r hr
      have := List.of_mem_filter hr
      simpa using this
  case year =>
    have hmem_annual : ∀ (G : List FRow) (r : FRow),
        r ∈ (G.filter (fun x => x.account_nm == item)).filter
          (fun x => x.reprt_code == "11011") →
        r ∈ G ∧ r.reprt_code = "11011" := by
      intro G r hr
      have h1 := List.mem_filter.mp hr
      have h2 := List.mem_filter.mp h1.1
      exact ⟨h2.1, by simpa using h1.2⟩
    -- the annual rows of the metric, sorted by release
    have hB : (sortK FRow.release (F.filter (fun r => r.account_nm == item))).filter
          (fun r => r.reprt_code == "11011")
        = sortK FRow.release ((F.filter (fun r => r.account_nm == item)).filter
            (fun r => r.reprt_code == "11011")) := filter_sortK _ _ _
    -- split that sorted list at day d
    have hsplitB : sortK FRow.release ((F.filter (fun r => r.account_nm == item)).filter
          (fun r => r.reprt_code == "11011"))
        = sortK FRow.release (((F.filter (fun r => r.account_nm == item)).filter
              (fun r => r.reprt_code == "11011")).filter (fun r => decide (r.release ≤ d)))
          ++ sortK FRow.release (((F.filter (fun r => r.account_nm == item)).filter
              (fun r => r.reprt_code == "11011")).filter (fun r => decide (¬ r.release ≤ d))) := by
      have h0 := sorted_split_le FRow.release d
        (sortK FRow.release ((F.filter (fun r => r.account_nm == item)).filter
          (fun r => r.reprt_code == "11011"))) (sortK_sorted _ _)
      rw [filter_sortK, filter_sortK] at h0
      exact h0
    have hyearlt : ∀ a ∈ sortK FRow.release (((F.filter (fun r => r.account_nm == item)).filter
            (fun r => r.reprt_code == "11011")).filter (fun r => decide (r.release ≤ d))),
        ∀ b ∈ sortK FRow.release (((F.filter (fun r => r.account_nm == item)).filter
            (fun r => r.reprt_code == "11011")).filter (fun r => decide (¬ r.release ≤ d))),
        a.year < b.year := by
      intro a ha b hb
      have ha1 := List.mem_filter.mp ((mem_sortK _ _ _).mp ha)
      have hb1 := List.mem_filter.mp ((mem_sortK _ _ _).mp hb)
      rcases hmem_annual F a ha1.1 with ⟨haF, harc⟩
      rcases hmem_annual F b hb1.1 with ⟨hbF, hbrc⟩
      have hard : a.release ≤ d := by simpa using ha1.2
      have hbrd : ¬ b.release ≤ d := by simpa using hb1.2
      have haR : a.release = (a.year + 1) * 10000 + 331 := by
        rw [hinv a haF, harc, release_annual]
      have hbR : b.release = (b.year + 1) * 10000 + 331 := by
        rw [hinv b hbF, hbrc, release_annual]
      omega
    have hyearne : ∀ a ∈ sortK FRow.year (sortK FRow.release
            (((F.filter (fun r => r.account_nm == item)).filter
              (fun r => r.reprt_code == "11011")).filter (fun r => decide (r.release ≤ d)))),
        ∀ b ∈ sortK FRow.year (sortK FRow.release
            (((F.filter (fun r => r.account_nm == item)).filter
              (fun r => r.reprt_code == "11011")).filter (fun r => decide (¬ r.release ≤ d)))),
        a.year ≠ b.year := by
      intro a ha b hb
      exact ne_of_lt (hyearlt a ((mem_sortK _ _ _).mp ha) b ((mem_sortK _ _ _).mp hb))
    refine ⟨dedupYearKeepLast (sortK FRow.year (sortK FRow.release
      (((F.filter (fun r => r.account_nm == item)).filter
        (fun r => r.reprt_code == "11011")).filter (fun r => decide (¬ r.release ≤ d))))), ?_, ?_⟩
    · show dedupYearKeepLast (sortK FRow.year ((sortK FRow.release
          (F.filter (fun r => r.account_nm == item))).filter
            (fun r => r.reprt_code == "11011"))) = _
      rw [hB, hsplitB, sortK_append_lt FRow.year _ _ hyearlt,
        dedupYearKeepLast_append _ _ hyearne]
      congr 2
      show sortK FRow.year (sortK FRow.release _) = sortK FRow.year ((sortK FRow.release
        ((pastR d F).filter (fun r => r.account_nm == item))).filter
          (fun r => r.reprt_code == "11011"))
      rw [filter_sortK]
      congr 2
      show ((F.filter (fun r => r.account_nm == item)).filter
            (fun r => r.reprt_code == "11011")).filter (fun r => decide (r.release ≤ d))
        = ((pastR d F).filter (fun r => r.account_nm == item)).filter
            (fun r => r.reprt_code == "11011")
      rw [show (pastR d F).filter (fun r => r.account_nm == item)
          = (F.filter (fun r => r.account_nm == item)).filter
              (fun r => decide (r.release ≤ d)) from filter_comm' _ _ F]
      exact filter_comm' _ _ _
    · intro r hr
      have h1 := mem_dedupYearKeepLast r _ hr
      have h2 := List.mem_filter.mp ((mem_sortK _ _ _).mp ((mem_sortK _ _ _).mp h1))
      simpa using h2.2

/-- The pivot index splits at day `d`. -/
lemma pivotDates_split (F : List FRow) (d : Int) :
    ∃ Q, pivotDates F = pivotDates (pastR d F) ++ Q ∧
      (∀ x ∈ Q, d < x) ∧ (∀ x ∈ pivotDates (pastR d F), x ≤ d) := by
  have hsplit : sortK id (F.map FRow.release)
      = sortK id ((F.map FRow.release).filter (fun x => decide (x ≤ d)))
        ++ sortK id ((F.map FRow.release).filter (fun x => decide (¬ x ≤ d))) := by
    rw [← filter_sortK, ← filter_sortK]
    exact sorted_split_le id d _ (sortK_sorted _ _)
  have hle : ∀ x ∈ sortK id ((F.map FRow.release).filter (fun x => decide (x ≤ d))), x ≤ d := by
    intro x hx
    have := List.of_mem_filter ((mem_sortK _ _ _).mp hx)
    simpa using this
  have hgt : ∀ x ∈ sortK id ((F.map FRow.release).filter (fun x => decide (¬ x ≤ d))), d < x := by
    intro x hx
    have := List.of_mem_filter ((mem_sortK _ _ _).mp hx)
    have h2 : ¬ x ≤ d := by simpa using this
    omega
  refine ⟨dedupAdj (sortK id ((F.map FRow.release).filter (fun x => decide (¬ x ≤ d)))), ?_, ?_, ?_⟩
  · show dedupAdj (sortK id (F.map FRow.release)) = _
    rw [hsplit, dedupAdj_append d _ _ hle hgt]
    congr 2
    show sortK id ((F.map FRow.release).filter (fun x => decide (x ≤ d)))
      = sortK id ((pastR d F).map FRow.release)
    rw [map_release_past]
  · intro x hx
    exact hgt x (mem_dedupAdj x _ hx)
  · intro x hx
    have h1 := mem_dedupAdj x _ hx
    rw [map_release_past] at h1
    exact hle x h1

/-! ## Stability of the derived-series synthesis under the day-`d` cut -/

lemma relInv_append {F G : List FRow} (hF : relInv F) (hG : relInv G) :
    relInv (F ++ G) := by
  intro r hr
  rcases List.mem_append.mp hr with h | h
  · exact hF r h
  · exact hG r h

lemma relInv_map_toFRow (raw : List RawFiling) : relInv (raw.map toFRow) := by
  intro r hr
  rcases List.mem_map.mp hr with ⟨f, hf, rfl⟩
  rfl

lemma relInv_of_sublist {F G : List FRow} (hF : relInv F) (h : ∀ r ∈ G, r ∈ F) :
    relInv G := fun r hr => hF r (h r hr)

lemma relInv_fcfRows {F : List FRow} (hF : relInv F) : relInv (fcfRows F) := by
  intro x hx
  unfold fcfRows at hx
  by_cases hocf : (F.filter (fun r => r.account_nm == "영업활동현금흐름")).isEmpty
  · rw [if_pos hocf] at hx
    exact absurd hx (List.not_mem_nil x)
  · rw [if_neg hocf] at hx
    by_cases hcap : (F.filter (fun r => r.account_nm == "유형자산의취득")).isEmpty
    · rw [if_pos hcap] at hx
      rcases List.mem_map.mp hx with ⟨r, hr, rfl⟩
      have hrF := (List.mem_filter.mp hr).1
      exact hF r hrF
    · rw [if_neg hcap] at hx
      rcases List.mem_flatMap.mp hx with ⟨r, hr, hxr⟩
      have hrF := (List.mem_filter.mp hr).1
      have hxr' : x ∈ (if ((F.filter (fun c => c.account_nm == "유형자산의취득")).filter
            (fun c => c.year == r.year && c.reprt_code == r.reprt_code)).isEmpty then
            [fcfMergeRow r 0]
          else ((F.filter (fun c => c.account_nm == "유형자산의취득")).filter
            (fun c => c.year == r.year && c.reprt_code == r.reprt_code)).map
              (fun c => fcfMergeRow r c.amount)) := hxr
      by_cases hms : ((F.filter (fun c => c.account_nm == "유형자산의취득")).filter
          (fun c => c.year == r.year && c.reprt_code == r.reprt_code)).isEmpty
      · rw [if_pos hms] at hxr'
        rcases List.mem_singleton.mp hxr' with rfl
        exact hF r hrF
      · rw [if_neg hms] at hxr'
        rcases List.mem_map.mp hxr' with ⟨c, hc, rfl⟩
        exact hF r hrF

lemma relInv_marginRows {F : List FRow} (hF : relInv F) : relInv (marginRows F) := by
  intro x hx
  unfold marginRows at hx
  rcases List.mem_flatMap.mp hx with ⟨r, hr, hxr⟩
  rcases List.mem_map.mp hxr with ⟨o, ho, rfl⟩
  have hrF := (List.mem_filter.mp hr).1
  exact hF r hrF

lemma relInv_pfdRows (raw : List RawFiling) : relInv (pfdRows raw) := by
  have h1 := relInv_map_toFRow raw
  have h2 := relInv_append h1 (relInv_fcfRows h1)
  exact relInv_append h2 (relInv_marginRows h2)

lemma relInv_pastR {F : List FRow} (d : Int) (hF : relInv F) : relInv (pastR d F) :=
  relInv_of_sublist hF (fun r hr => (List.mem_filter.mp hr).1)

lemma pastR_append (d : Int) (F G : List FRow) :
    pastR d (F ++ G) = pastR d F ++ pastR d G := List.filter_append F G

/-- Rows filtered by account and by `(year, reprt_code)`-match against a
visible row `r` are themselves visible: matching keys force the same release
date, so cutting at day `d` before or after the match is the same. -/
lemma key_filter_past (d : Int) (F : List FRow) (hinv : relInv F) (acct : String)
    (r : FRow) (hrrel : r.release = get_release_date r.year r.reprt_code)
    (hrd : r.release ≤ d) :
    ((pastR d F).filter (fun c => c.account_nm == acct)).filter
        (fun c => c.year == r.year && c.reprt_code == r.reprt_code)
      = (F.filter (fun c => c.account_nm == acct)).filter
        (fun c => c.year == r.year && c.reprt_code == r.reprt_code) := by
  rw [show (pastR d F).filter (fun c => c.account_nm == acct)
      = (F.filter (fun c => c.account_nm == acct)).filter
          (fun c => decide (c.release ≤ d)) from filter_comm' _ _ F]
  rw [filter_comm' (fun c => decide (c.release ≤ d))
    (fun c => c.year == r.year && c.reprt_code == r.reprt_code)
    (F.filter (fun c => c.account_nm == acct))]
  apply List.filter_eq_self.mpr
  intro c hc
  have h1 := List.mem_filter.mp hc
  have h2 := List.mem_filter.mp h1.1
  have hcF := h2.1
  have hkey := h1.2
  rw [Bool.and_eq_true] at hkey
  have hy : c.year = r.year := by simpa using hkey.1
  have hrc : c.reprt_code = r.reprt_code := by simpa using hkey.2
  have : c.release = r.release := by
    rw [hinv c hcF, hy, hrc, hrrel]
  simp only [decide_eq_true_eq]
  omega

lemma fcfMergeRow_zero (r : FRow) :
    fcfMergeRow r 0 = ⟨"FCF", r.reprt_code, r.year, r.amount, r.release⟩ := by
  unfold fcfMergeRow
  rw [abs_zero, sub_zero]

lemma flatMap_singleton' {α β : Type} (l : List α) (f : α → β) :
    l.flatMap (fun a => [f a]) = l.map f := by
  induction l with
  | nil => rfl
  | cons a as ih => rw [List.flatMap_cons, List.map_cons, List.singleton_append, ih]

/-- The synthesized operating-margin rows of the visible frame are exactly
the visible synthesized rows. -/
lemma marginRows_past (d : Int) (F : List FRow) (hinv : relInv F) :
    pastR d (marginRows F) = marginRows (pastR d F) := by
  show (marginRows F).filter (fun x => decide (x.release ≤ d)) = _
  unfold marginRows
  rw [filter_flatMap]
  have step1 : ∀ r ∈ F.filter (fun x => x.account_nm == "매출액"),
      (((F.filter (fun x => x.account_nm == "영업이익")).filter
          (fun o => o.year == r.year && o.reprt_code == r.reprt_code)).map
        (fun o => (⟨"영업이익률", r.reprt_code, r.year,
          if r.amount ≠ 0 then o.amount / r.amount * 100 else 0, r.release⟩ : FRow))).filter
        (fun x => decide (x.release ≤ d))
      = if decide (r.release ≤ d) then
          ((F.filter (fun x => x.account_nm == "영업이익")).filter
            (fun o => o.year == r.year && o.reprt_code == r.reprt_code)).map
              (fun o => (⟨"영업이익률", r.reprt_code, r.year,
                if r.amount ≠ 0 then o.amount / r.amount * 100 else 0, r.release⟩ : FRow))
        else [] := by
    intro r hr
    by_cases hrd : decide (r.release ≤ d) = true
    · rw [if_pos hrd]
      apply List.filter_eq_self.mpr
      intro x hx
      rcases List.mem_map.mp hx with ⟨o, ho, rfl⟩
      exact hrd
    · rw [if_neg hrd]
      apply List.filter_eq_nil_iff.mpr
      intro x hx
      rcases List.mem_map.mp hx with ⟨o, ho, rfl⟩
      exact hrd
  rw [flatMap_congr _ _ _ step1, flatMap_if_filter]
  have houter : (F.filter (fun x => x.account_nm == "매출액")).filter
        (fun r => decide (r.release ≤ d))
      = (pastR d F).filter (fun x => x.account_nm == "매출액") :=
    (filter_comm' _ _ F).symm
  rw [houter]
  apply flatMap_congr
  intro r hr
  have hrpast := List.mem_filter.mp hr
  have hrF := (List.mem_filter.mp hrpast.1).1
  have hrd : r.release ≤ d := by
    have := (List.mem_filter.mp hrpast.1).2
    simpa using this
  rw [key_filter_past d F hinv "영업이익" r (hinv r hrF) hrd]

/-- The synthesized FCF rows of the visible frame are exactly the visible
synthesized rows (a missing capital-expenditure partner contributes `0` on
both sides). -/
lemma fcfRows_past (d : Int) (F : List FRow) (hinv : relInv F) :
    pastR d (fcfRows F) = fcfRows (pastR d F) := by
  have hocf_past : (pastR d F).filter (fun x => x.account_nm == "영업활동현금흐름")
      = (F.filter (fun x => x.account_nm == "영업활동현금흐름")).filter
          (fun x => decide (x.release ≤ d)) := filter_comm' _ _ F
  have hcap_past : (pastR d F).filter (fun x => x.account_nm == "유형자산의취득")
      = (F.filter (fun x => x.account_nm == "유형자산의취득")).filter
          (fun x => decide (x.release ≤ d)) := filter_comm' _ _ F
  show (fcfRows F).filter (fun x => decide (x.release ≤ d)) = _
  unfold fcfRows
  by_cases hocf : (F.filter (fun r => r.account_nm == "영업활동현금흐름")).isEmpty
  · rw [if_pos hocf]
    rw [List.isEmpty_iff] at hocf
    rw [hocf_past, hocf]
    rfl
  · rw [if_neg hocf]
    by_cases hcap : (F.filter (fun r => r.account_nm == "유형자산의취득")).isEmpty
    · -- no capital-expenditure rows at all: plain rename
      rw [if_pos hcap]
      rw [List.isEmpty_iff] at hcap
      have hlhs : ((F.filter (fun r => r.account_nm == "영업활동현금흐름")).map
            (fun r => (⟨"FCF", r.reprt_code, r.year, r.amount, r.release⟩ : FRow))).filter
            (fun x => decide (x.release ≤ d))
          = ((F.filter (fun r => r.account_nm == "영업활동현금흐름")).filter
              (fun r => decide (r.release ≤ d))).map
            (fun r => (⟨"FCF", r.reprt_code, r.year, r.amount, r.release⟩ : FRow)) := by
        rw [List.filter_map]
        rfl
      rw [hlhs, hocf_past, hcap_past, hcap]
      show _ = (if ((F.filter (fun r => r.account_nm == "영업활동현금흐름")).filter
          (fun x => decide (x.release ≤ d))).isEmpty then ([] : List FRow)
        else if (List.filter (fun x => decide (x.release ≤ d)) []).isEmpty then
          ((F.filter (fun r => r.account_nm == "영업활동현금흐름")).filter
            (fun x => decide (x.release ≤ d))).map
              (fun r => (⟨"FCF", r.reprt_code, r.year, r.amount, r.release⟩ : FRow))
        else _)
      by_cases hpo : ((F.filter (fun r => r.account_nm == "영업활동현금흐름")).filter
          (fun x => decide (x.release ≤ d))).isEmpty
      · rw [if_pos hpo]
        rw [List.isEmpty_iff] at hpo
        rw [hpo]
        rfl
      · rw [if_neg hpo, if_pos (by rfl)]
    · -- the merge branch
      rw [if_neg hcap]
      rw [filter_flatMap]
      have hstep : ∀ r ∈ F.filter (fun x => x.account_nm == "영업활동현금흐름"),
          ((if ((F.filter (fun c => c.account_nm == "유형자산의취득")).filter
              (fun c => c.year == r.year && c.reprt_code == r.reprt_code)).isEmpty then
              [fcfMergeRow r 0]
            else ((F.filter (fun c => c.account_nm == "유형자산의취득")).filter
              (fun c => c.year == r.year && c.reprt_code == r.reprt_code)).map
                (fun c => fcfMergeRow r c.amount)).filter (fun x => decide (x.release ≤ d)))
          = if decide (r.release ≤ d) then
              (if ((F.filter (fun c => c.account_nm == "유형자산의취득")).filter
                (fun c => c.year == r.year && c.reprt_code == r.reprt_code)).isEmpty then
                [fcfMergeRow r 0]
              else ((F.filter (fun c => c.account_nm == "유형자산의취득")).filter
                (fun c => c.year == r.year && c.reprt_code == r.reprt_code)).map
                  (fun c => fcfMergeRow r c.amount))
            else [] := by
        intro r hr
        by_cases hrd : decide (r.release ≤ d) = true
        · rw [if_pos hrd]
          apply List.filter_eq_self.mpr
          intro x hx
          by_cases hms : ((F.filter (fun c => c.account_nm == "유형자산의취득")).filter
              (fun c => c.year == r.year && c.reprt_code == r.reprt_code)).isEmpty
          · rw [if_pos hms] at hx
            rcases List.mem_singleton.mp hx with rfl
            exact hrd
          · rw [if_neg hms] at hx
            rcases List.mem_map.mp hx with ⟨c, hc, rfl⟩
            exact hrd
        · rw [if_neg hrd]
          apply List.filter_eq_nil_iff.mpr
          intro x hx
          by_cases hms : ((F.filter (fun c => c.account_nm == "유형자산의취득")).filter
              (fun c => c.year == r.year && c.reprt_code == r.reprt_code)).isEmpty
          · rw [if_pos hms] at hx
            rcases List.mem_singleton.mp hx with rfl
            exact hrd
          · rw [if_neg hms] at hx
            rcases List.mem_map.mp hx with ⟨c, hc, rfl⟩
            exact hrd
      rw [flatMap_congr _ _ _ hstep, flatMap_if_filter]
      have houter : (F.filter (fun x => x.account_nm == "영업활동현금흐름")).filter
            (fun r => decide (r.release ≤ d))
          = (pastR d F).filter (fun x => x.account_nm == "영업활동현금흐름") :=
    (filter_comm' _ _ F).symm
      rw [houter]
      by_cases hpo : ((pastR d F).filter
          (fun x => x.account_nm == "영업활동현금흐름")).isEmpty
      · rw [List.isEmpty_iff] at hpo
        rw [hpo]
        show ([] : List FRow) = _
        rw [if_pos (by rfl)]
      · rw [if_neg hpo]
        by_cases hpc : ((pastR d F).filter
            (fun x => x.account_nm == "유형자산의취득")).isEmpty
        · -- visible capital-expenditure rows are absent: every visible
          -- operating-cash-flow row merges against nothing, amount kept
          rw [if_pos hpc]
          have hkeynil : ∀ r ∈ (pastR d F).filter
              (fun x => x.account_nm == "영업활동현금흐름"),
              ((F.filter (fun c => c.account_nm == "유형자산의취득")).filter
                (fun c => c.year == r.year && c.reprt_code == r.reprt_code)) = [] := by
            intro r hr
            have hrF := (List.mem_filter.mp ((List.mem_filter.mp hr).1)).1
            have hrd : r.release ≤ d := by
              have := (List.mem_filter.mp ((List.mem_filter.mp hr).1)).2
              simpa using this
            rw [← key_filter_past d F hinv "유형자산의취득" r (hinv r hrF) hrd]
            rw [List.isEmpty_iff] at hpc
            rw [hpc]
            rfl
          have hcongr : ∀ r ∈ (pastR d F).filter
              (fun x => x.account_nm == "영업활동현금흐름"),
              (if ((F.filter (fun c => c.account_nm == "유형자산의취득")).filter
                (fun c => c.year == r.year && c.reprt_code == r.reprt_code)).isEmpty then
                [fcfMergeRow r 0]
              else ((F.filter (fun c => c.account_nm == "유형자산의취득")).filter
                (fun c => c.year == r.year && c.reprt_code == r.reprt_code)).map
                  (fun c => fcfMergeRow r c.amount))
              = [(⟨"FCF", r.reprt_code, r.year, r.amount, r.release⟩ : FRow)] := by
            intro r hr
            rw [if_pos (by rw [hkeynil r hr]; rfl), fcfMergeRow_zero]
          rw [flatMap_congr _ _ _ hcongr, flatMap_singleton']
        · rw [if_neg hpc]
          apply flatMap_congr
          intro r hr
          have hrF := (List.mem_filter.mp ((List.mem_filter.mp hr).1)).1
          have hrd : r.release ≤ d := by
            have := (List.mem_filter.mp ((List.mem_filter.mp hr).1)).2
            simpa using this
          rw [key_filter_past d F hinv "유형자산의취득" r (hinv r hrF) hrd]

/-- The visible working frame of two runs agreeing on visible filings is
identical: the day-`d` cut commutes with the whole synthesis. -/
lemma pfdRows_past (d : Int) (raw : List RawFiling) :
    pastR d (pfdRows raw)
      = pfdRows (raw.filter
          (fun f => decide (get_release_date f.year f.reprt_code ≤ d))) := by
  have hmap : pastR d (raw.map toFRow)
      = (raw.filter (fun f => decide (get_release_date f.year f.reprt_code ≤ d))).map toFRow := by
    show (raw.map toFRow).filter _ = _
    rw [List.filter_map]
    rfl
  have hinv1 := relInv_map_toFRow raw
  have hinv2 := relInv_append hinv1 (relInv_fcfRows hinv1)
  show pastR d ((raw.map toFRow ++ fcfRows (raw.map toFRow))
      ++ marginRows (raw.map toFRow ++ fcfRows (raw.map toFRow))) = _
  rw [pastR_append, pastR_append, fcfRows_past d _ hinv1, marginRows_past d _ hinv2,
    pastR_append, fcfRows_past d _ hinv1, hmap]
  rfl

/-! ## Windows of future filings never cover a visible day -/

/-- Whether a raw filing is released (visible) on or before day `d`. -/
def visibleAt (d : Int) (f : RawFiling) : Bool :=
  decide (get_release_date f.year f.reprt_code ≤ d)

lemma coverB_append_past (ds1 ds2 : List Int) (d : Int)
    (h2 : ∀ x ∈ ds2, d < x) (i : Nat) (hi : i < ds1.length + ds2.length) :
    coverB (ds1 ++ ds2) i d = if i < ds1.length then coverB ds1 i d else false := by
  unfold coverB
  rcases Nat.lt_or_ge i ds1.length with hlt | hge
  · rw [if_pos hlt]
    have hstart : (ds1 ++ ds2).getD i 0 = ds1.getD i 0 :=
      List.getD_append ds1 ds2 0 i hlt
    rcases Nat.lt_or_ge (i + 1) ds1.length with hb | hb
    · rw [if_pos (show i + 1 < (ds1 ++ ds2).length by rw [List.length_append]; omega),
        if_pos hb, hstart, List.getD_append ds1 ds2 0 (i + 1) hb]
    · have hi1 : i + 1 = ds1.length := by omega
      rcases Nat.eq_zero_or_pos ds2.length with h0 | hpos
      · rw [if_neg (show ¬ i + 1 < (ds1 ++ ds2).length by rw [List.length_append]; omega),
          if_neg (show ¬ i + 1 < ds1.length by omega), hstart]
      · rw [if_pos (show i + 1 < (ds1 ++ ds2).length by rw [List.length_append]; omega),
          if_neg (show ¬ i + 1 < ds1.length by omega), hstart]
        have hnext : (ds1 ++ ds2).getD (i + 1) 0 = ds2.getD 0 0 := by
          rw [List.getD_append_right ds1 ds2 0 (i + 1) (by omega), hi1, Nat.sub_self]
        have hmem : ds2.getD 0 0 ∈ ds2 := by
          rw [getD_eq_getElem' ds2 0 0 hpos]
          exact List.getElem_mem hpos
        have hdlt : d < (ds1 ++ ds2).getD (i + 1) 0 := by
          rw [hnext]
          exact h2 _ hmem
        rw [show decide (d < (ds1 ++ ds2).getD (i + 1) 0) = true from by simpa using hdlt,
          Bool.and_true]
  · rw [if_neg (show ¬ i < ds1.length by omega)]
    have hstart : (ds1 ++ ds2).getD i 0 = ds2.getD (i - ds1.length) 0 :=
      List.getD_append_right ds1 ds2 0 i hge
    have hmem : ds2.getD (i - ds1.length) 0 ∈ ds2 := by
      rw [getD_eq_getElem' ds2 _ 0 (by omega)]
      exact List.getElem_mem (by omega)
    have hdlt : d < (ds1 ++ ds2).getD i 0 := by
      rw [hstart]
      exact h2 _ hmem
    have hs : decide ((ds1 ++ ds2).getD i 0 ≤ d) = false := by
      simpa using not_le.mpr hdlt
    by_cases hcase : i + 1 < (ds1 ++ ds2).length
    · rw [if_pos hcase, hs, Bool.false_and]
    · rw [if_neg hcase]
      exact hs

/-- Appending future filing dates (all after `d`) to the window list does not
change whether day `d` ends up marked, as long as the window conditions agree
on the original windows. -/
lemma anyCover_append (ds1 ds2 : List Int) (d : Int) (h2 : ∀ x ∈ ds2, d < x)
    (lo : Nat) (ok1 ok2 : Nat → Bool) (hok : ∀ i, i < ds1.length → ok2 i = ok1 i) :
    ((List.range' lo ((ds1 ++ ds2).length - lo)).any
        (fun i => ok2 i && coverB (ds1 ++ ds2) i d))
      = (List.range' lo (ds1.length - lo)).any (fun i => ok1 i && coverB ds1 i d) := by
  rw [Bool.eq_iff_iff, List.any_eq_true, List.any_eq_true]
  constructor
  · rintro ⟨i, hmem, hP⟩
    rw [List.mem_range'_1, List.length_append] at hmem
    have hi : i < ds1.length + ds2.length := by omega
    rw [Bool.and_eq_true] at hP
    have hcb := hP.2
    rw [coverB_append_past ds1 ds2 d h2 i hi] at hcb
    by_cases hilt : i < ds1.length
    · refine ⟨i, ?_, ?_⟩
      · rw [List.mem_range'_1]
        omega
      · rw [Bool.and_eq_true]
        refine ⟨by rw [← hok i hilt]; exact hP.1, ?_⟩
        rw [if_pos hilt] at hcb
        exact hcb
    · rw [if_neg hilt] at hcb
      exact absurd hcb (by simp)
  · rintro ⟨i, hmem, hP⟩
    rw [List.mem_range'_1] at hmem
    have hilt : i < ds1.length := by omega
    refine ⟨i, ?_, ?_⟩
    · rw [List.mem_range'_1, List.length_append]
      omega
    · rw [Bool.and_eq_true] at hP
      rw [Bool.and_eq_true]
      refine ⟨by rw [hok i hilt]; exact hP.1, ?_⟩
      rw [coverB_append_past ds1 ds2 d h2 i (by omega), if_pos hilt]
      exact hP.2

lemma broadcastMask_append_getD (idx : List Int) (ds1 ds2 : List Int)
    (lo : Nat) (ok1 ok2 : Nat → Bool) (hok : ∀ i, i < ds1.length → ok2 i = ok1 i)
    (j : Nat) (hj : j < idx.length) (h2 : ∀ x ∈ ds2, idx.getD j 0 < x) :
    (broadcastMask idx (ds1 ++ ds2) lo ok2).getD j false
      = (broadcastMask idx ds1 lo ok1).getD j false := by
  rw [broadcastMask_getD idx (ds1 ++ ds2) lo ok2 j hj,
    broadcastMask_getD idx ds1 lo ok1 j hj]
  exact anyCover_append ds1 ds2 (idx.getD j 0) h2 lo ok1 ok2 hok

lemma growthOk_append (n : ℚ) (v1 v2 : List ℚ) (i : Nat) (hi : i < v1.length) :
    growthOk n (v1 ++ v2) i = growthOk n v1 i := by
  simp only [growthOk]
  rw [List.getD_append v1 v2 0 i hi, List.getD_append v1 v2 0 (i - 1) (by omega),
    List.getD_append v1 v2 0 (i - 2) (by omega), List.getD_append v1 v2 0 (i - 3) (by omega)]

lemma surplusOk_append (v1 v2 : List ℚ) (i : Nat) (hi : i < v1.length) :
    surplusOk (v1 ++ v2) i = surplusOk v1 i := by
  simp only [surplusOk]
  rw [List.getD_append v1 v2 0 i hi, List.getD_append v1 v2 0 (i - 1) (by omega),
    List.getD_append v1 v2 0 (i - 2) (by omega)]

lemma calculate_surplus_mask_eval (dfMain : List FRow) (item : String)
    (per : PeriodType) (idx : List Int) :
    calculate_surplus_mask dfMain item per idx
      = if 3 ≤ (growthTarget dfMain item per).length then
          broadcastMask idx ((growthTarget dfMain item per).map FRow.release) 2
            (surplusOk ((growthTarget dfMain item per).map FRow.amount))
        else idx.map (fun _ => false) := by
  unfold calculate_surplus_mask
  by_cases hempty : (dfMain.filter (fun r => r.account_nm == item)).isEmpty
  · rw [if_pos hempty]
    rw [List.isEmpty_iff] at hempty
    rw [growthTarget_of_empty dfMain item per hempty]
    rw [if_neg (by simp)]
  · rw [if_neg hempty]
    show (if ((growthTarget dfMain item per).map FRow.amount).length < 3 then
        idx.map (fun _ => false)
      else broadcastMask idx ((growthTarget dfMain item per).map FRow.release) 2
        (surplusOk ((growthTarget dfMain item per).map FRow.amount))) = _
    by_cases h3 : 3 ≤ (growthTarget dfMain item per).length
    · rw [if_neg (by rw [List.length_map]; omega), if_pos h3]
    · rw [if_pos (by rw [List.length_map]; omega), if_neg h3]

lemma getD_replicate_true (n p : Nat) (hp : p < n) :
    (List.replicate n true).getD p false = true := by
  rw [List.getD_eq_getElem?_getD, List.getElem?_replicate, if_pos hp]
  rfl

/-! ## Day-level characterization of the fundamental masks -/

/-- The value a growth mask takes on calendar day `d`: some complete window
whose interval covers `d` passes the three-step growth test. -/
def growthEntry (F : List FRow) (item : String) (per : PeriodType) (n : ℚ)
    (d : Int) : Bool :=
  if 4 ≤ (growthTarget F item per).length then
    (List.range' 3 ((growthTarget F item per).length - 3)).any
      (fun i => growthOk n ((growthTarget F item per).map FRow.amount) i
        && coverB ((growthTarget F item per).map FRow.release) i d)
  else false

/-- The value a surplus mask takes on calendar day `d`. -/
def surplusEntry (F : List FRow) (item : String) (per : PeriodType) (d : Int) : Bool :=
  if 3 ≤ (growthTarget F item per).length then
    (List.range' 2 ((growthTarget F item per).length - 2)).any
      (fun i => surplusOk ((growthTarget F item per).map FRow.amount) i
        && coverB ((growthTarget F item per).map FRow.release) i d)
  else false

/-- The value the debt-ratio mask takes on calendar day `d`. -/
def debtEntry (F : List FRow) (limit : ℚ) (d : Int) : Bool :=
  (List.range' 0 (pivotDates F).length).any
    (fun i => debtOk F limit i && coverB (pivotDates F) i d)

/-- A growth mask's entry at position `j` is the day-level test of the part
of the frame visible on day `idx[j]`. -/
lemma calculate_growth_mask_getD (F : List FRow) (item : String) (per : PeriodType)
    (n : ℚ) (idx : List Int) (hinv : relInv F) (j : Nat) (hj : j < idx.length) :
    (calculate_growth_mask F item per n idx).getD j false
      = growthEntry (pastR (idx.getD j 0) F) item per n (idx.getD j 0) := by
  obtain ⟨Q, hsplit, hQ⟩ := growthTarget_split F item per (idx.getD j 0) hinv
  have hQfut : ∀ x ∈ Q.map FRow.release, idx.getD j 0 < x := by
    intro x hx
    rcases List.mem_map.mp hx with ⟨r, hr, rfl⟩
    have := hQ r hr
    omega
  rw [calculate_growth_mask_eval]
  unfold growthEntry
  by_cases h4 : 4 ≤ (growthTarget F item per).length
  · rw [if_pos h4, broadcastMask_getD _ _ _ _ j hj, hsplit, List.map_append,
      List.map_append,
      anyCover_append ((growthTarget (pastR (idx.getD j 0) F) item per).map FRow.release)
        (Q.map FRow.release) (idx.getD j 0) hQfut 3
        (growthOk n ((growthTarget (pastR (idx.getD j 0) F) item per).map FRow.amount))
        (growthOk n ((growthTarget (pastR (idx.getD j 0) F) item per).map FRow.amount
          ++ Q.map FRow.amount))
        (fun i hi => growthOk_append n _ _ i
          (by simp only [List.length_map] at hi ⊢; exact hi))]
    simp only [List.length_map]
    by_cases h41 : 4 ≤ (growthTarget (pastR (idx.getD j 0) F) item per).length
    · rw [if_pos h41]
    · rw [if_neg h41,
        show (growthTarget (pastR (idx.getD j 0) F) item per).length - 3 = 0 by omega]
      rfl
  · rw [if_neg h4, getD_map_false]
    have hlen : (growthTarget (pastR (idx.getD j 0) F) item per).length
        ≤ (growthTarget F item per).length := by
      rw [hsplit, List.length_append]
      omega
    rw [if_neg (by omega)]

/-- A surplus mask's entry at position `j` is the day-level test of the part
of the frame visible on day `idx[j]`. -/
lemma calculate_surplus_mask_getD (F : List FRow) (item : String) (per : PeriodType)
    (idx : List Int) (hinv : relInv F) (j : Nat) (hj : j < idx.length) :
    (calculate_surplus_mask F item per idx).getD j false
      = surplusEntry (pastR (idx.getD j 0) F) item per (idx.getD j 0) := by
  obtain ⟨Q, hsplit, hQ⟩ := growthTarget_split F item per (idx.getD j 0) hinv
  have hQfut : ∀ x ∈ Q.map FRow.release, idx.getD j 0 < x := by
    intro x hx
    rcases List.mem_map.mp hx with ⟨r, hr, rfl⟩
    have := hQ r hr
    omega
  rw [calculate_surplus_mask_eval]
  unfold surplusEntry
  by_cases h3 : 3 ≤ (growthTarget F item per).length
  · rw [if_pos h3, broadcastMask_getD _ _ _ _ j hj, hsplit, List.map_append,
      List.map_append,
      anyCover_append ((growthTarget (pastR (idx.getD j 0) F) item per).map FRow.release)
        (Q.map FRow.release) (idx.getD j 0) hQfut 2
        (surplusOk ((growthTarget (pastR (idx.getD j 0) F) item per).map FRow.amount))
        (surplusOk ((growthTarget (pastR (idx.getD j 0) F) item per).map FRow.amount
          ++ Q.map FRow.amount))
        (fun i hi => surplusOk_append _ _ i
          (by simp only [List.length_map] at hi ⊢; exact hi))]
    simp only [List.length_map]
    by_cases h31 : 3 ≤ (growthTarget (pastR (idx.getD j 0) F) item per).length
    · rw [if_pos h31]
    · rw [if_neg h31,
        show (growthTarget (pastR (idx.getD j 0) F) item per).length - 2 = 0 by omega]
      rfl
  · rw [if_neg h3, getD_map_false]
    have hlen : (growthTarget (pastR (idx.getD j 0) F) item per).length
        ≤ (growthTarget F item per).length := by
      rw [hsplit, List.length_append]
      omega
    rw [if_neg (by omega)]

/-- A pivot cell at a visible date is unchanged by the day-`d` cut: every row
carrying that release date is itself visible. -/
lemma pivotGet_past (d : Int) (F : List FRow) (t : Int) (ht : t ≤ d) (a : String) :
    pivotGet (pastR d F) t a = pivotGet F t a := by
  unfold pivotGet
  have heq : (pastR d F).filter (fun r => r.release == t && r.account_nm == a)
      = F.filter (fun r => r.release == t && r.account_nm == a) := by
    rw [show (pastR d F).filter (fun r => r.release == t && r.account_nm == a)
        = (F.filter (fun r => r.release == t && r.account_nm == a)).filter
            (fun r => decide (r.release ≤ d)) from filter_comm' _ _ F]
    apply List.filter_eq_self.mpr
    intro c hc
    have hkey := (List.mem_filter.mp hc).2
    rw [Bool.and_eq_true] at hkey
    have hrel : c.release = t := by simpa using hkey.1
    simp only [decide_eq_true_eq]
    omega
  rw [heq]

lemma debtOk_past (F : List FRow) (limit : ℚ) (d : Int) (i : Nat)
    (hi : i < (pivotDates (pastR d F)).length)
    (hQ : ∃ Q, pivotDates F = pivotDates (pastR d F) ++ Q)
    (hpast : ∀ x ∈ pivotDates (pastR d F), x ≤ d) :
    debtOk F limit i = debtOk (pastR d F) limit i := by
  obtain ⟨Q, hQ⟩ := hQ
  have ht : (pivotDates F).getD i 0 = (pivotDates (pastR d F)).getD i 0 := by
    rw [hQ]
    exact List.getD_append _ _ 0 i hi
  have htmem : (pivotDates (pastR d F)).getD i 0 ∈ pivotDates (pastR d F) := by
    rw [getD_eq_getElem' _ _ _ hi]
    exact List.getElem_mem hi
  have htle : (pivotDates (pastR d F)).getD i 0 ≤ d := hpast _ htmem
  simp only [debtOk]
  rw [ht, pivotGet_past d F _ htle, pivotGet_past d F _ htle]

/-- The debt mask's entry at position `j` is the day-level test of the part
of the frame visible on day `idx[j]`. -/
lemma debtMask_getD (F : List FRow) (limit : ℚ) (idx : List Int)
    (j : Nat) (hj : j < idx.length) :
    (debtMask F limit idx).getD j false
      = debtEntry (pastR (idx.getD j 0) F) limit (idx.getD j 0) := by
  obtain ⟨Q, hsplit, hQfut, hpast⟩ := pivotDates_split F (idx.getD j 0)
  unfold debtMask debtEntry
  rw [broadcastMask_getD _ _ _ _ j hj]
  conv_lhs => rw [hsplit]
  rw [anyCover_append (pivotDates (pastR (idx.getD j 0) F)) Q (idx.getD j 0) hQfut 0
    (debtOk (pastR (idx.getD j 0) F) limit) (debtOk F limit)
    (fun i hi => debtOk_past F limit (idx.getD j 0) i hi ⟨Q, hsplit⟩ hpast),
    Nat.sub_zero]

/-! ## Entry of the combined fundamental mask -/

lemma calculate_growth_mask_length (F : List FRow) (item : String) (per : PeriodType)
    (n : ℚ) (idx : List Int) :
    (calculate_growth_mask F item per n idx).length = idx.length := by
  rw [calculate_growth_mask_eval]
  by_cases h : 4 ≤ (growthTarget F item per).length
  · rw [if_pos h, broadcastMask_length]
  · rw [if_neg h, List.length_map]

lemma calculate_surplus_mask_length (F : List FRow) (item : String) (per : PeriodType)
    (idx : List Int) :
    (calculate_surplus_mask F item per idx).length = idx.length := by
  rw [calculate_surplus_mask_eval]
  by_cases h : 3 ≤ (growthTarget F item per).length
  · rw [if_pos h, broadcastMask_length]
  · rw [if_neg h, List.length_map]

lemma debtMask_length (F : List FRow) (limit : ℚ) (idx : List Int) :
    (debtMask F limit idx).length = idx.length := by
  unfold debtMask
  rw [broadcastMask_length]

lemma applyG_length (m : List Bool) (F : List FRow) (item : String) (per : PeriodType)
    (v : Option ℚ) (idx : List Int) (hm : m.length = idx.length) :
    (applyG m F item per v idx).length = idx.length := by
  cases v with
  | none => exact hm
  | some n =>
    show (List.zipWith (· && ·) m (calculate_growth_mask F item per n idx)).length = _
    rw [List.length_zipWith, calculate_growth_mask_length, hm, Nat.min_self]

lemma applyS_length (m : List Bool) (F : List FRow) (item : String) (per : PeriodType)
    (v : Option ℚ) (idx : List Int) (hm : m.length = idx.length) :
    (applyS m F item per v idx).length = idx.length := by
  cases v with
  | none => exact hm
  | some n =>
    show (List.zipWith (· && ·) m (calculate_surplus_mask F item per idx)).length = _
    rw [List.length_zipWith, calculate_surplus_mask_length, hm, Nat.min_self]

lemma applyD_length (m : List Bool) (F : List FRow) (v : Option ℚ) (idx : List Int)
    (hm : m.length = idx.length) :
    (applyD m F v idx).length = idx.length := by
  cases v with
  | none => exact hm
  | some limit =>
    show (List.zipWith (· && ·) m (debtMask F limit idx)).length = _
    rw [List.length_zipWith, debtMask_length, hm, Nat.min_self]

/-- One optional growth gate of the params loop, at day level. -/
def gateG (v : Option ℚ) (F : List FRow) (item : String) (per : PeriodType)
    (d : Int) : Bool :=
  match v with
  | none => true
  | some n => growthEntry F item per n d

/-- One optional surplus gate of the params loop, at day level. -/
def gateS (v : Option ℚ) (F : List FRow) (item : String) (per : PeriodType)
    (d : Int) : Bool :=
  match v with
  | none => true
  | some _ => surplusEntry F item per d

/-- The optional debt gate, at day level. -/
def gateD (v : Option ℚ) (F : List FRow) (d : Int) : Bool :=
  match v with
  | none => true
  | some limit => debtEntry F limit d

lemma applyG_getD (m : List Bool) (F : List FRow) (item : String) (per : PeriodType)
    (v : Option ℚ) (idx : List Int) (hm : m.length = idx.length)
    (hinv : relInv F) (j : Nat) (hj : j < idx.length) :
    (applyG m F item per v idx).getD j false
      = (m.getD j false && gateG v (pastR (idx.getD j 0) F) item per (idx.getD j 0)) := by
  cases v with
  | none =>
    show m.getD j false = (m.getD j false && true)
    rw [Bool.and_true]
  | some n =>
    show (List.zipWith (· && ·) m (calculate_growth_mask F item per n idx)).getD j false
      = (m.getD j false && growthEntry (pastR (idx.getD j 0) F) item per n (idx.getD j 0))
    rw [getD_zipWith_and _ _ j (by omega)
        (by rw [calculate_growth_mask_length]; omega),
      calculate_growth_mask_getD F item per n idx hinv j hj]

lemma applyS_getD (m : List Bool) (F : List FRow) (item : String) (per : PeriodType)
    (v : Option ℚ) (idx : List Int) (hm : m.length = idx.length)
    (hinv : relInv F) (j : Nat) (hj : j < idx.length) :
    (applyS m F item per v idx).getD j false
      = (m.getD j false && gateS v (pastR (idx.getD j 0) F) item per (idx.getD j 0)) := by
  cases v with
  | none =>
    show m.getD j false = (m.getD j false && true)
    rw [Bool.and_true]
  | some n =>
    show (List.zipWith (· && ·) m (calculate_surplus_mask F item per idx)).getD j false
      = (m.getD j false && surplusEntry (pastR (idx.getD j 0) F) item per (idx.getD j 0))
    rw [getD_zipWith_and _ _ j (by omega)
        (by rw [calculate_surplus_mask_length]; omega),
      calculate_surplus_mask_getD F item per idx hinv j hj]

lemma applyD_getD (m : List Bool) (F : List FRow) (v : Option ℚ) (idx : List Int)
    (hm : m.length = idx.length) (j : Nat) (hj : j < idx.length) :
    (applyD m F v idx).getD j false
      = (m.getD j false && gateD v (pastR (idx.getD j 0) F) (idx.getD j 0)) := by
  cases v with
  | none =>
    show m.getD j false = (m.getD j false && true)
    rw [Bool.and_true]
  | some limit =>
    show (List.zipWith (· && ·) m (debtMask F limit idx)).getD j false
      = (m.getD j false && debtEntry (pastR (idx.getD j 0) F) limit (idx.getD j 0))
    rw [getD_zipWith_and _ _ j (by omega) (by rw [debtMask_length]; omega),
      debtMask_getD F limit idx j hj]

lemma getD_map_true {α : Type} (l : List α) (p : Nat) (hp : p < l.length) :
    (l.map (fun _ => true)).getD p false = true := by
  rw [getD_eq_getElem' _ _ _ (by rw [List.length_map]; exact hp)]
  simp

/-- The combined fundamental mask on one calendar day, evaluated over a
frame: the conjunction of all enabled gates in params order. -/
def fundEntry (ps : FundParams) (F : List FRow) (d : Int) : Bool :=
  ((((((((((true &&
    gateG ps.rev3y F "매출액" .year d) &&
    gateG ps.rev3q F "매출액" .quarter d) &&
    gateG ps.op3y F "영업이익" .year d) &&
    gateG ps.op3q F "영업이익" .quarter d) &&
    gateG ps.margin3y F "영업이익률" .year d) &&
    gateG ps.margin3q F "영업이익률" .quarter d) &&
    gateG ps.net3y F "당기순이익" .year d) &&
    gateG ps.net3q F "당기순이익" .quarter d) &&
    gateS ps.fcf3y F "FCF" .year d) &&
    gateS ps.fcf3q F "FCF" .quarter d) &&
    gateD ps.debtMax F d

/-- Entry `j` of `process_fundamental_data` is a function of the day
`idx[j]` and of the rows of the working frame visible on that day. -/
lemma process_fundamental_data_getD (idx : List Int) (raw : List RawFiling)
    (ps : FundParams) (j : Nat) (hj : j < idx.length) :
    (process_fundamental_data idx raw ps).getD j false
      = if raw.isEmpty then false
        else fundEntry ps (pastR (idx.getD j 0) (pfdRows raw)) (idx.getD j 0) := by
  simp only [process_fundamental_data]
  by_cases hraw : raw.isEmpty = true
  · rw [if_pos hraw, if_pos hraw, getD_map_false]
  · rw [if_neg hraw, if_neg hraw]
    have hinv := relInv_pfdRows raw
    have h0 : (idx.map (fun _ : Int => true)).length = idx.length := by
      rw [List.length_map]
    have h1 := applyG_length _ (pfdRows raw) "매출액" PeriodType.year ps.rev3y idx h0
    have h2 := applyG_length _ (pfdRows raw) "매출액" PeriodType.quarter ps.rev3q idx h1
    have h3 := applyG_length _ (pfdRows raw) "영업이익" PeriodType.year ps.op3y idx h2
    have h4 := applyG_length _ (pfdRows raw) "영업이익" PeriodType.quarter ps.op3q idx h3
    have h5 := applyG_length _ (pfdRows raw) "영업이익률" PeriodType.year ps.margin3y idx h4
    have h6 := applyG_length _ (pfdRows raw) "영업이익률" PeriodType.quarter ps.margin3q idx h5
    have h7 := applyG_length _ (pfdRows raw) "당기순이익" PeriodType.year ps.net3y idx h6
    have h8 := applyG_length _ (pfdRows raw) "당기순이익" PeriodType.quarter ps.net3q idx h7
    have h9 := applyS_length _ (pfdRows raw) "FCF" PeriodType.year ps.fcf3y idx h8
    have h10 := applyS_length _ (pfdRows raw) "FCF" PeriodType.quarter ps.fcf3q idx h9
    rw [applyD_getD _ _ _ _ h10 j hj,
      applyS_getD _ _ _ _ _ _ h9 hinv j hj,
      applyS_getD _ _ _ _ _ _ h8 hinv j hj,
      applyG_getD _ _ _ _ _ _ h7 hinv j hj,
      applyG_getD _ _ _ _ _ _ h6 hinv j hj,
      applyG_getD _ _ _ _ _ _ h5 hinv j hj,
      applyG_getD _ _ _ _ _ _ h4 hinv j hj,
      applyG_getD _ _ _ _ _ _ h3 hinv j hj,
      applyG_getD _ _ _ _ _ _ h2 hinv j hj,
      applyG_getD _ _ _ _ _ _ h1 hinv j hj,
      applyG_getD _ _ _ _ _ _ h0 hinv j hj,
      getD_map_true idx j hj]
    rfl

/-! ## The technical rules are prefix-determined -/

lemma rollingMean_length (w : Nat) (xs : List ℚ) :
    (rollingMean w xs).length = xs.length := by
  unfold rollingMean
  rw [List.length_map, List.length_range]

lemma rollingMean_getD (w : Nat) (xs : List ℚ) (i : Nat) (hi : i < xs.length) :
    (rollingMean w xs).getD i none
      = if w ≤ i + 1 then some ((((xs.take (i + 1)).drop (i + 1 - w)).sum) / (w : ℚ))
        else none := by
  unfold rollingMean
  rw [getD_range_map xs.length _ i hi]

lemma take_agree_take {α : Type} {l1 l2 : List α} {m : Nat}
    (h : l1.take m = l2.take m) (n : Nat) (hn : n ≤ m) : l1.take n = l2.take n := by
  have e1 : l1.take n = (l1.take m).take n := by
    rw [List.take_take, Nat.min_eq_left hn]
  have e2 : l2.take n = (l2.take m).take n := by
    rw [List.take_take, Nat.min_eq_left hn]
  rw [e1, e2, h]

lemma map_take_agree {α β : Type} (f : α → β) {l1 l2 : List α} {m : Nat}
    (h : l1.take m = l2.take m) : (l1.map f).take m = (l2.map f).take m := by
  rw [← List.map_take, ← List.map_take, h]

lemma rollingMean_getD_agree (w : Nat) (xs1 xs2 : List ℚ) (p i : Nat)
    (h : xs1.take (p + 1) = xs2.take (p + 1)) (hi : i ≤ p)
    (h1 : i < xs1.length) (h2 : i < xs2.length) :
    (rollingMean w xs1).getD i none = (rollingMean w xs2).getD i none := by
  rw [rollingMean_getD w xs1 i h1, rollingMean_getD w xs2 i h2,
    take_agree_take h (i + 1) (by omega)]

lemma maMask_getD_agree (pm : MAParams) (bars1 bars2 : List Bar) (p : Nat)
    (hpre : bars1.take (p + 1) = bars2.take (p + 1))
    (h1 : p < bars1.length) (h2 : p < bars2.length) :
    (maMask pm bars1).getD p false = (maMask pm bars2).getD p false := by
  have hc : (bars1.map Bar.close).take (p + 1) = (bars2.map Bar.close).take (p + 1) :=
    map_take_agree _ hpre
  have e1 : ∀ w, (rollingMean w (bars1.map Bar.close)).getD p none
      = (rollingMean w (bars2.map Bar.close)).getD p none := fun w =>
    rollingMean_getD_agree w _ _ p p hc (le_refl p) (by rw [List.length_map]; exact h1)
      (by rw [List.length_map]; exact h2)
  simp only [maMask]
  rw [getD_range_map bars1.length _ p h1, getD_range_map bars2.length _ p h2,
    e1, e1, e1]

lemma crossMask_getD_agree (pc : CrossParams) (bars1 bars2 : List Bar) (p : Nat)
    (hpre : bars1.take (p + 1) = bars2.take (p + 1))
    (h1 : p < bars1.length) (h2 : p < bars2.length) :
    (crossMask pc bars1).getD p false = (crossMask pc bars2).getD p false := by
  have hc : (bars1.map Bar.close).take (p + 1) = (bars2.map Bar.close).take (p + 1) :=
    map_take_agree _ hpre
  have e1 : ∀ w, (rollingMean w (bars1.map Bar.close)).getD p none
      = (rollingMean w (bars2.map Bar.close)).getD p none := fun w =>
    rollingMean_getD_agree w _ _ p p hc (le_refl p) (by rw [List.length_map]; exact h1)
      (by rw [List.length_map]; exact h2)
  have e0 : ∀ w, ¬ p = 0 → (rollingMean w (bars1.map Bar.close)).getD (p - 1) none
      = (rollingMean w (bars2.map Bar.close)).getD (p - 1) none := fun w hp =>
    rollingMean_getD_agree w _ _ p (p - 1) hc (by omega)
      (by rw [List.length_map]; omega) (by rw [List.length_map]; omega)
  simp only [crossMask, crossCore]
  rw [getD_range_map (rollingMean pc.ma1 (bars1.map Bar.close)).length _ p
      (by rw [rollingMean_length, List.length_map]; exact h1),
    getD_range_map (rollingMean pc.ma1 (bars2.map Bar.close)).length _ p
      (by rw [rollingMean_length, List.length_map]; exact h2)]
  by_cases hp : p = 0
  · rw [if_pos hp, if_pos hp, if_pos hp, if_pos hp, e1, e1]
  · rw [if_neg hp, if_neg hp, if_neg hp, if_neg hp, e1, e1, e0 _ hp, e0 _ hp]

lemma breakoutMask_getD_agree (pb : BreakoutParams) (bars1 bars2 : List Bar) (p : Nat)
    (hpre : bars1.take (p + 1) = bars2.take (p + 1))
    (h1 : p < bars1.length) (h2 : p < bars2.length) :
    (breakoutMask pb bars1).getD p false = (breakoutMask pb bars2).getD p false := by
  have hc : (bars1.map Bar.close).take (p + 1) = (bars2.map Bar.close).take (p + 1) :=
    map_take_agree _ hpre
  have e1 : ∀ w, (rollingMean w (bars1.map Bar.close)).getD p none
      = (rollingMean w (bars2.map Bar.close)).getD p none := fun w =>
    rollingMean_getD_agree w _ _ p p hc (le_refl p) (by rw [List.length_map]; exact h1)
      (by rw [List.length_map]; exact h2)
  have hpr : ∀ (f : Bar → ℚ), (bars1.map f).getD p 0 = (bars2.map f).getD p 0 := fun f =>
    getD_of_take_eq (map_take_agree f hpre) (by omega) 0
  simp only [breakoutMask]
  rw [getD_range_map bars1.length _ p h1, getD_range_map bars2.length _ p h2]
  cases pb.field <;> cases pb.op <;> dsimp only <;> rw [hpr, e1]

lemma pctChange100_agree (xs1 xs2 : List ℚ) (p : Nat)
    (h : xs1.take (p + 1) = xs2.take (p + 1)) :
    pctChange100 xs1 p = pctChange100 xs2 p := by
  unfold pctChange100
  by_cases hp : p = 0
  · rw [if_pos hp, if_pos hp]
  · rw [if_neg hp, if_neg hp, getD_of_take_eq h (show p < p + 1 by omega) 0,
      getD_of_take_eq h (show p - 1 < p + 1 by omega) 0]

lemma changeMask_getD_agree (pch : ChangeParams) (bars1 bars2 : List Bar) (p : Nat)
    (hpre : bars1.take (p + 1) = bars2.take (p + 1))
    (h1 : p < bars1.length) (h2 : p < bars2.length) :
    (changeMask pch bars1).getD p false = (changeMask pch bars2).getD p false := by
  simp only [changeMask]
  rw [getD_range_map bars1.length _ p h1, getD_range_map bars2.length _ p h2,
    pctChange100_agree _ _ p (map_take_agree Bar.close hpre)]

lemma volumeMask_getD_agree (pv : VolumeParams) (bars1 bars2 : List Bar) (p : Nat)
    (hpre : bars1.take (p + 1) = bars2.take (p + 1))
    (h1 : p < bars1.length) (h2 : p < bars2.length) :
    (volumeMask pv bars1).getD p false = (volumeMask pv bars2).getD p false := by
  simp only [volumeMask]
  rw [getD_range_map bars1.length _ p h1, getD_range_map bars2.length _ p h2,
    pctChange100_agree _ _ p (map_take_agree Bar.volume hpre)]

/-! ## Entry of the combined signal -/

/-- Entry `p` of an optional column (`True` when the rule is disabled). -/
def optB (o : Option (List Bool)) (p : Nat) : Bool :=
  match o with
  | none => true
  | some m => m.getD p false

lemma andMask_getD (m : List Bool) (o : Option (List Bool)) (p : Nat)
    (hp : p < m.length) (ho : ∀ l, o = some l → p < l.length) :
    (andMask m o).getD p false = (m.getD p false && optB o p) := by
  cases o with
  | none =>
    show m.getD p false = (m.getD p false && true)
    rw [Bool.and_true]
  | some m2 =>
    show (List.zipWith (· && ·) m m2).getD p false = (m.getD p false && m2.getD p false)
    exact getD_zipWith_and m m2 p hp (ho m2 rfl)

lemma andMask_length (m : List Bool) (o : Option (List Bool)) (L : Nat)
    (hm : m.length = L) (ho : ∀ l, o = some l → l.length = L) :
    (andMask m o).length = L := by
  cases o with
  | none => exact hm
  | some m2 =>
    show (List.zipWith (· && ·) m m2).length = L
    rw [List.length_zipWith, hm, ho m2 rfl, Nat.min_self]

lemma maMask_length (pm : MAParams) (bars : List Bar) :
    (maMask pm bars).length = bars.length := by
  simp only [maMask]
  rw [List.length_map, List.length_range]

lemma crossMask_length (pc : CrossParams) (bars : List Bar) :
    (crossMask pc bars).length = bars.length := by
  simp only [crossMask, crossCore]
  rw [List.length_map, List.length_range, rollingMean_length, List.length_map]

lemma breakoutMask_length (pb : BreakoutParams) (bars : List Bar) :
    (breakoutMask pb bars).length = bars.length := by
  simp only [breakoutMask]
  rw [List.length_map, List.length_range]

lemma changeMask_length (pch : ChangeParams) (bars : List Bar) :
    (changeMask pch bars).length = bars.length := by
  simp only [changeMask]
  rw [List.length_map, List.length_range]

lemma volumeMask_length (pv : VolumeParams) (bars : List Bar) :
    (volumeMask pv bars).length = bars.length := by
  simp only [volumeMask]
  rw [List.length_map, List.length_range]

/-- Entry `p` of `check_conditions` on a long-enough series: the conjunction
of all enabled rules at `p`. -/
lemma check_conditions_getD (bars : List Bar) (fundCol : Option (List Bool))
    (spec : ConditionSpec) (p : Nat) (hp : p < bars.length)
    (h120 : 120 ≤ bars.length)
    (hfl : ∀ l, fundCol = some l → l.length = bars.length) :
    (check_conditions bars fundCol spec).getD p false
      = ((((((true &&
          optB (spec.ma.map (fun q => maMask q bars)) p) &&
          optB (spec.maCross.map (fun q => crossMask q bars)) p) &&
          optB (spec.breakout.map (fun q => breakoutMask q bars)) p) &&
          optB (spec.change.map (fun q => changeMask q bars)) p) &&
          optB (spec.volume.map (fun q => volumeMask q bars)) p) &&
          optB (if spec.fundamental.isSome then fundCol else none) p) := by
  unfold check_conditions
  rw [if_neg (by omega)]
  have hL0 : (List.replicate bars.length true).length = bars.length :=
    List.length_replicate _ _
  have hoMa : ∀ l, spec.ma.map (fun q => maMask q bars) = some l
      → l.length = bars.length := by
    intro l hl
    rcases Option.map_eq_some'.mp hl with ⟨q, hq, rfl⟩
    exact maMask_length q bars
  have hoCr : ∀ l, spec.maCross.map (fun q => crossMask q bars) = some l
      → l.length = bars.length := by
    intro l hl
    rcases Option.map_eq_some'.mp hl with ⟨q, hq, rfl⟩
    exact crossMask_length q bars
  have hoBr : ∀ l, spec.breakout.map (fun q => breakoutMask q bars) = some l
      → l.length = bars.length := by
    intro l hl
    rcases Option.map_eq_some'.mp hl with ⟨q, hq, rfl⟩
    exact breakoutMask_length q bars
  have hoCh : ∀ l, spec.change.map (fun q => changeMask q bars) = some l
      → l.length = bars.length := by
    intro l hl
    rcases Option.map_eq_some'.mp hl with ⟨q, hq, rfl⟩
    exact changeMask_length q bars
  have hoVo : ∀ l, spec.volume.map (fun q => volumeMask q bars) = some l
      → l.length = bars.length := by
    intro l hl
    rcases Option.map_eq_some'.mp hl with ⟨q, hq, rfl⟩
    exact volumeMask_length q bars
  have hoFu : ∀ l, (if spec.fundamental.isSome then fundCol else none) = some l
      → l.length = bars.length := by
    intro l hl
    by_cases hs : spec.fundamental.isSome = true
    · rw [if_pos hs] at hl
      exact hfl l hl
    · rw [if_neg hs] at hl
      cases hl
  have hL1 := andMask_length _ _ _ hL0 hoMa
  have hL2 := andMask_length _ _ _ hL1 hoCr
  have hL3 := andMask_length _ _ _ hL2 hoBr
  have hL4 := andMask_length _ _ _ hL3 hoCh
  have hL5 := andMask_length _ _ _ hL4 hoVo
  rw [andMask_getD _ _ p (by omega) (fun l hl => by rw [hoFu l hl]; omega),
    andMask_getD _ _ p (by omega) (fun l hl => by rw [hoVo l hl]; omega),
    andMask_getD _ _ p (by omega) (fun l hl => by rw [hoCh l hl]; omega),
    andMask_getD _ _ p (by omega) (fun l hl => by rw [hoBr l hl]; omega),
    andMask_getD _ _ p (by omega) (fun l hl => by rw [hoCr l hl]; omega),
    andMask_getD _ _ p (by omega) (fun l hl => by rw [hoMa l hl]; omega),
    getD_replicate_true bars.length p hp]

/-! ## The fundamental column of the per-stock pipeline -/

lemma process_fundamental_data_length (idx : List Int) (raw : List RawFiling)
    (ps : FundParams) :
    (process_fundamental_data idx raw ps).length = idx.length := by
  simp only [process_fundamental_data]
  by_cases hraw : raw.isEmpty = true
  · rw [if_pos hraw, List.length_map]
  · rw [if_neg hraw]
    have h0 : (idx.map (fun _ : Int => true)).length = idx.length := by
      rw [List.length_map]
    have h1 := applyG_length _ (pfdRows raw) "매출액" PeriodType.year ps.rev3y idx h0
    have h2 := applyG_length _ (pfdRows raw) "매출액" PeriodType.quarter ps.rev3q idx h1
    have h3 := applyG_length _ (pfdRows raw) "영업이익" PeriodType.year ps.op3y idx h2
    have h4 := applyG_length _ (pfdRows raw) "영업이익" PeriodType.quarter ps.op3q idx h3
    have h5 := applyG_length _ (pfdRows raw) "영업이익률" PeriodType.year ps.margin3y idx h4
    have h6 := applyG_length _ (pfdRows raw) "영업이익률" PeriodType.quarter ps.margin3q idx h5
    have h7 := applyG_length _ (pfdRows raw) "당기순이익" PeriodType.year ps.net3y idx h6
    have h8 := applyG_length _ (pfdRows raw) "당기순이익" PeriodType.quarter ps.net3q idx h7
    have h9 := applyS_length _ (pfdRows raw) "FCF" PeriodType.year ps.fcf3y idx h8
    have h10 := applyS_length _ (pfdRows raw) "FCF" PeriodType.quarter ps.fcf3q idx h9
    exact applyD_length _ (pfdRows raw) ps.debtMax idx h10

lemma fundamentalColumn_none (idx : List Int) (fetch : Option (List RawFiling))
    (spec : ConditionSpec) (h : spec.fundamental = none) :
    fundamentalColumn idx spec fetch = none := by
  unfold fundamentalColumn
  rw [h]

lemma fundamentalColumn_eq_some (idx : List Int) (spec : ConditionSpec)
    (fetch : Option (List RawFiling)) (fp : FundParams)
    (h : spec.fundamental = some fp) :
    fundamentalColumn idx spec fetch
      = if fp.apiKey then
          (match fetch with
           | none => some (idx.map (fun _ => false))
           | some l =>
             if l.isEmpty then some (idx.map (fun _ => false))
             else some (process_fundamental_data idx l fp))
        else some (idx.map (fun _ => false)) := by
  unfold fundamentalColumn
  rw [h]

lemma fundamentalColumn_length (idx : List Int) (spec : ConditionSpec)
    (fetch : Option (List RawFiling)) :
    ∀ l, fundamentalColumn idx spec fetch = some l → l.length = idx.length := by
  intro l hl
  cases hspec : spec.fundamental with
  | none =>
    rw [fundamentalColumn_none idx fetch spec hspec] at hl
    cases hl
  | some fp =>
    rw [fundamentalColumn_eq_some idx spec fetch fp hspec] at hl
    by_cases hk : fp.apiKey = true
    · rw [if_pos hk] at hl
      cases fetch with
      | none =>
        have hl2 : some (idx.map (fun _ => false)) = some l := hl
        injection hl2 with h
        rw [← h, List.length_map]
      | some lst =>
        have hl2 : (if lst.isEmpty then some (idx.map (fun _ => false))
            else some (process_fundamental_data idx lst fp)) = some l := hl
        by_cases he : lst.isEmpty = true
        · rw [if_pos he] at hl2
          injection hl2 with h
          rw [← h, List.length_map]
        · rw [if_neg he] at hl2
          injection hl2 with h
          rw [← h, process_fundamental_data_length]
    · rw [if_neg hk] at hl
      injection hl with h
      rw [← h, List.length_map]

/-! ## C1: point-in-time integrity of the Signal -/

/-- A flat price series used to exercise the signal pipeline. -/
def cexBars (n : Nat) : List Bar :=
  (List.range n).map (fun i => ⟨(i : Int), 1, 1, 1⟩)

/-- C1 is false as stated: the `len(df) < 120` gate (app.py:72-74) makes the
signal at day `d` depend on bars dated after `d`.  Two runs agreeing on every
bar up to position `p` (and using no filings at all) disagree at `p` when one
run has 119 bars and the other 120. -/
theorem C1_counterexample :
    ∃ (bars1 bars2 : List Bar) (p : Nat),
      bars1.take (p + 1) = bars2.take (p + 1) ∧
      p < bars1.length ∧ p < bars2.length ∧
      (signalSeries bars1 emptySpec none).getD p false
        ≠ (signalSeries bars2 emptySpec none).getD p false := by
  refine ⟨cexBars 119, cexBars 120, 118, by decide, by decide, by decide, by decide⟩

/-- C1 (amended).  Point-in-time integrity on long-enough series: if two
runs agree on every price bar up to position `p` (both series at least 120
bars long), their filing fetches are equally available, and — writing `d`
for the bar date at `p` — the fetched filing lists agree on every filing
released on or before `d` and are equally empty, then the combined Signal at
`p` is identical: neither future bars nor a filing released after `d` can
change it. -/
theorem C1_point_in_time (bars1 bars2 : List Bar) (spec : ConditionSpec)
    (fetch1 fetch2 : Option (List RawFiling)) (p : Nat)
    (h120a : 120 ≤ bars1.length) (h120b : 120 ≤ bars2.length)
    (hp1 : p < bars1.length) (hp2 : p < bars2.length)
    (hpre : bars1.take (p + 1) = bars2.take (p + 1))
    (hsome : fetch1.isSome = fetch2.isSome)
    (hvis : ∀ l1 l2, fetch1 = some l1 → fetch2 = some l2 →
      l1.filter (visibleAt ((bars1.map Bar.date).getD p 0))
        = l2.filter (visibleAt ((bars1.map Bar.date).getD p 0))
      ∧ l1.isEmpty = l2.isEmpty) :
    (signalSeries bars1 spec fetch1).getD p false
      = (signalSeries bars2 spec fetch2).getD p false := by
  have hfl1 : ∀ l, fundamentalColumn (bars1.map Bar.date) spec fetch1 = some l
      → l.length = bars1.length := by
    intro l hl
    rw [fundamentalColumn_length _ _ _ l hl, List.length_map]
  have hfl2 : ∀ l, fundamentalColumn (bars2.map Bar.date) spec fetch2 = some l
      → l.length = bars2.length := by
    intro l hl
    rw [fundamentalColumn_length _ _ _ l hl, List.length_map]
  have hd : (bars1.map Bar.date).getD p 0 = (bars2.map Bar.date).getD p 0 :=
    getD_of_take_eq (map_take_agree Bar.date hpre) (by omega) 0
  unfold signalSeries
  rw [check_conditions_getD bars1 _ spec p hp1 h120a hfl1,
    check_conditions_getD bars2 _ spec p hp2 h120b hfl2]
  have hMa : optB (spec.ma.map (fun q => maMask q bars1)) p
      = optB (spec.ma.map (fun q => maMask q bars2)) p := by
    cases spec.ma with
    | none => rfl
    | some q =>
      show (maMask q bars1).getD p false = (maMask q bars2).getD p false
      exact maMask_getD_agree q bars1 bars2 p hpre hp1 hp2
  have hCr : optB (spec.maCross.map (fun q => crossMask q bars1)) p
      = optB (spec.maCross.map (fun q => crossMask q bars2)) p := by
    cases spec.maCross with
    | none => rfl
    | some q =>
      show (crossMask q bars1).getD p false = (crossMask q bars2).getD p false
      exact crossMask_getD_agree q bars1 bars2 p hpre hp1 hp2
  have hBr : optB (spec.breakout.map (fun q => breakoutMask q bars1)) p
      = optB (spec.breakout.map (fun q => breakoutMask q bars2)) p := by
    cases spec.breakout with
    | none => rfl
    | some q =>
      show (breakoutMask q bars1).getD p false = (breakoutMask q bars2).getD p false
      exact breakoutMask_getD_agree q bars1 bars2 p hpre hp1 hp2
  have hCh : optB (spec.change.map (fun q => changeMask q bars1)) p
      = optB (spec.change.map (fun q => changeMask q bars2)) p := by
    cases spec.change with
    | none => rfl
    | some q =>
      show (changeMask q bars1).getD p false = (changeMask q bars2).getD p false
      exact changeMask_getD_agree q bars1 bars2 p hpre hp1 hp2
  have hVo : optB (spec.volume.map (fun q => volumeMask q bars1)) p
      = optB (spec.volume.map (fun q => volumeMask q bars2)) p := by
    cases spec.volume with
    | none => rfl
    | some q =>
      show (volumeMask q bars1).getD p false = (volumeMask q bars2).getD p false
      exact volumeMask_getD_agree q bars1 bars2 p hpre hp1 hp2
  have hFu : optB (if spec.fundamental.isSome then
        fundamentalColumn (bars1.map Bar.date) spec fetch1 else none) p
      = optB (if spec.fundamental.isSome then
        fundamentalColumn (bars2.map Bar.date) spec fetch2 else none) p := by
    cases hspec : spec.fundamental with
    | none => rfl
    | some fp =>
      show optB (fundamentalColumn (bars1.map Bar.date) spec fetch1) p
        = optB (fundamentalColumn (bars2.map Bar.date) spec fetch2) p
      rw [fundamentalColumn_eq_some _ spec fetch1 fp hspec,
        fundamentalColumn_eq_some _ spec fetch2 fp hspec]
      by_cases hk : fp.apiKey = true
      · rw [if_pos hk, if_pos hk]
        cases fetch1 with
        | none =>
          cases fetch2 with
          | none =>
            show ((bars1.map Bar.date).map (fun _ => false)).getD p false
              = ((bars2.map Bar.date).map (fun _ => false)).getD p false
            rw [getD_map_false, getD_map_false]
          | some l2 => simp at hsome
        | some l1 =>
          cases fetch2 with
          | none => simp at hsome
          | some l2 =>
            obtain ⟨hfil, hemp⟩ := hvis l1 l2 rfl rfl
            by_cases he : l1.isEmpty = true
            · have he2 : l2.isEmpty = true := by rw [← hemp]; exact he
              show optB (if l1.isEmpty then some ((bars1.map Bar.date).map (fun _ => false))
                  else some (process_fundamental_data (bars1.map Bar.date) l1 fp)) p
                = optB (if l2.isEmpty then some ((bars2.map Bar.date).map (fun _ => false))
                  else some (process_fundamental_data (bars2.map Bar.date) l2 fp)) p
              rw [if_pos he, if_pos he2]
              show ((bars1.map Bar.date).map (fun _ => false)).getD p false
                = ((bars2.map Bar.date).map (fun _ => false)).getD p false
              rw [getD_map_false, getD_map_false]
            · have he2 : ¬ l2.isEmpty = true := by rw [← hemp]; exact he
              show optB (if l1.isEmpty then some ((bars1.map Bar.date).map (fun _ => false))
                  else some (process_fundamental_data (bars1.map Bar.date) l1 fp)) p
                = optB (if l2.isEmpty then some ((bars2.map Bar.date).map (fun _ => false))
                  else some (process_fundamental_data (bars2.map Bar.date) l2 fp)) p
              rw [if_neg he, if_neg he2]
              show (process_fundamental_data (bars1.map Bar.date) l1 fp).getD p false
                = (process_fundamental_data (bars2.map Bar.date) l2 fp).getD p false
              rw [process_fundamental_data_getD _ _ _ p (by rw [List.length_map]; exact hp1),
                process_fundamental_data_getD _ _ _ p (by rw [List.length_map]; exact hp2),
                if_neg he, if_neg he2, ← hd]
              have hframes : pastR ((bars1.map Bar.date).getD p 0) (pfdRows l1)
                  = pastR ((bars1.map Bar.date).getD p 0) (pfdRows l2) := by
                rw [pfdRows_past, pfdRows_past]
                have hfil2 : l1.filter (fun f =>
                    decide (get_release_date f.year f.reprt_code
                      ≤ (bars1.map Bar.date).getD p 0))
                    = l2.filter (fun f =>
                    decide (get_release_date f.year f.reprt_code
                      ≤ (bars1.map Bar.date).getD p 0)) := hfil
                rw [hfil2]
              rw [hframes]
      · rw [if_neg hk, if_neg hk]
        show ((bars1.map Bar.date).map (fun _ => false)).getD p false
          = ((bars2.map Bar.date).map (fun _ => false)).getD p false
        rw [getD_map_false, getD_map_false]
  rw [hMa, hCr, hBr, hCh, hVo, hFu]

theorem C1_point_in_time_witness :
    120 ≤ (cexBars 120).length ∧ 120 ≤ (cexBars 121).length ∧
    118 < (cexBars 120).length ∧ 118 < (cexBars 121).length ∧
    (cexBars 120).take 119 = (cexBars 121).take 119 ∧
    (signalSeries (cexBars 120) emptySpec none).getD 118 false
      = (signalSeries (cexBars 121) emptySpec none).getD 118 false := by
  refine ⟨by decide, by decide, by decide, by decide, by decide, ?_⟩
  exact C1_point_in_time (cexBars 120) (cexBars 121) emptySpec none none 118
    (by decide) (by decide) (by decide) (by decide) (by decide) rfl
    (fun l1 l2 h1 h2 => by cases h1)

end TradeData
